import Mathlib

/-!
Verification of the compatibility-graph and ordering engine of
`rekordbox_creative` (graph/scoring.py, graph/graph.py, graph/pathfinding.py,
graph/clustering.py, suggestions/engine.py, suggestions/filters.py,
suggestions/strategies.py, suggestions/set_generator.py, db/models.py).

Embedding conventions:
* Python floats are modelled by `ℚ` (the spec demands exact, bit-reproducible
  breakpoints, and every constant in the source is a decimal literal).
* Python ints are `Int` (cluster labels) or `Nat` (counts, fuel).
* Track UUIDs are opaque identifiers, modelled by `Nat`.
* Camelot keys, groove types and frequency weights are Python `str`, modelled
  by `String`.
* Fallible Python code (e.g. a `ZeroDivisionError`) is modelled by
  `Option`-returning "checked" variants alongside the total functions.
* Pydantic field validation bounds (`ge=`/`le=`/`gt=`/pattern) are modelled as
  hypotheses on theorems where they matter, not as subtype invariants.
-/

namespace RekordboxCreative

/-- Model of `SpotifyStyleMetrics` from db/models.py: normalized 0.0-1.0 audio feature
scores (`energy`, `danceability`, `acousticness`, `instrumentalness`,
`valence`, `liveness`). -/
structure SpotifyStyleMetrics where
  energy : ℚ
  danceability : ℚ
  acousticness : ℚ
  instrumentalness : ℚ
  valence : ℚ
  liveness : ℚ
deriving DecidableEq, Repr

/-- Model of `DJMetrics` from db/models.py: DJ-specific analysis results.  `key` holds
Camelot notation matching the validation pattern `^\d{1,2}[AB]$`. -/
structure DJMetrics where
  bpm : ℚ
  bpm_stability : ℚ
  key : String
  key_confidence : ℚ
  mix_in_score : ℚ
  mix_out_score : ℚ
  frequency_weight : String
  groove_type : String
deriving DecidableEq, Repr

/-- Model of `Track` from db/models.py, restricted to the fields the graph/suggestion
engine reads.  File metadata, structure landmarks and timestamps are never
consulted by the code under verification and are omitted.  `id` is the UUID,
modelled as an opaque `Nat`. -/
structure Track where
  id : Nat
  duration_seconds : ℚ
  spotify_style : SpotifyStyleMetrics
  dj_metrics : DJMetrics
  cluster_id : Option Int
  times_used : Nat
deriving DecidableEq, Repr

/-- Model of `EdgeScores` from db/models.py: breakdown of the six compatibility
components. -/
structure EdgeScores where
  harmonic : ℚ
  bpm : ℚ
  energy : ℚ
  groove : ℚ
  frequency : ℚ
  mix_quality : ℚ
deriving DecidableEq, Repr

/-- Model of `SuggestionStrategy` enum from db/models.py. -/
inductive SuggestionStrategy where
  | HARMONIC_FLOW
  | ENERGY_ARC
  | DISCOVERY
  | GROOVE_LOCK
  | CONTRAST
deriving DecidableEq, Repr

/-- Model of `SuggestionConfig` from db/models.py.  Pydantic places no range or sign
constraint on the six weight fields (plain `float` fields, no `Field(ge=..)`),
which the embedding mirrors by using unconstrained `ℚ` fields. -/
structure SuggestionConfig where
  harmonic_weight : ℚ
  bpm_weight : ℚ
  energy_weight : ℚ
  groove_weight : ℚ
  frequency_weight : ℚ
  mix_quality_weight : ℚ
  strategy : SuggestionStrategy
  bpm_min : Option ℚ
  bpm_max : Option ℚ
  key_lock : Bool
  groove_lock : Bool
  exclude_cluster_ids : List Int
  num_suggestions : Nat
  diversity_bonus : ℚ
deriving DecidableEq, Repr

/-- The default `SuggestionConfig()` (all defaults from db/models.py). -/
def defaultSuggestionConfig : SuggestionConfig where
  harmonic_weight := 0.30
  bpm_weight := 0.25
  energy_weight := 0.15
  groove_weight := 0.10
  frequency_weight := 0.10
  mix_quality_weight := 0.10
  strategy := SuggestionStrategy.HARMONIC_FLOW
  bpm_min := none
  bpm_max := none
  key_lock := false
  groove_lock := false
  exclude_cluster_ids := []
  num_suggestions := 8
  diversity_bonus := 0.1

/-- The weight dictionary `{"harmonic": .., "bpm": .., ...}` used by the
scorer, modelled as a record with one field per dictionary key. -/
structure Weights where
  harmonic : ℚ
  bpm : ℚ
  energy : ℚ
  groove : ℚ
  frequency : ℚ
  mix_quality : ℚ
deriving DecidableEq, Repr

/-- Model of `DEFAULT_WEIGHTS` from graph/scoring.py. -/
def DEFAULT_WEIGHTS : Weights where
  harmonic := 0.30
  bpm := 0.25
  energy := 0.15
  groove := 0.10
  frequency := 0.10
  mix_quality := 0.10

/-- The raw sum of the six weights of a `SuggestionConfig` (the `total` local
of `normalized_weights` in db/models.py). -/
def SuggestionConfig.weight_total (c : SuggestionConfig) : ℚ :=
  c.harmonic_weight + c.bpm_weight + c.energy_weight + c.groove_weight
    + c.frequency_weight + c.mix_quality_weight

/-- Model of `SuggestionConfig.normalized_weights` from db/models.py: each weight
divided by the raw sum.  Total model: Lean division by zero yields 0; the
Python `ZeroDivisionError` raised when the sum is 0 is captured separately by
`SuggestionConfig.normalized_weights_checked`. -/
def SuggestionConfig.normalized_weights (c : SuggestionConfig) : Weights where
  harmonic := c.harmonic_weight / c.weight_total
  bpm := c.bpm_weight / c.weight_total
  energy := c.energy_weight / c.weight_total
  groove := c.groove_weight / c.weight_total
  frequency := c.frequency_weight / c.weight_total
  mix_quality := c.mix_quality_weight / c.weight_total

/-- Checked variant of `normalized_weights`: Python float division raises
`ZeroDivisionError` when `total == 0`, modelled as `none`. -/
def SuggestionConfig.normalized_weights_checked (c : SuggestionConfig) :
    Option Weights :=
  if c.weight_total = 0 then none else some c.normalized_weights

/-! ## graph/scoring.py -/

/-- Python's builtin `min` on two floats (first argument wins ties).  Written
with an explicit `if` rather than Mathlib's lattice `⊓` so that concrete
instances reduce by `decide`. -/
def minQ (a b : ℚ) : ℚ := if a ≤ b then a else b

/-- Python's builtin `max` on two floats (first argument wins ties). -/
def maxQ (a b : ℚ) : ℚ := if b ≤ a then a else b

/-- Python's builtin `abs` on a float. -/
def absQ (a : ℚ) : ℚ := if a < 0 then -a else a

/-- Python's builtin `min` on two ints. -/
def minI (a b : Int) : Int := if a ≤ b then a else b

/-- Python's builtin `abs` on an int. -/
def absI (a : Int) : Int := if a < 0 then -a else a

/-- Decimal digit-string to number, as computed by Python's `int()` on a
string of digits.  Operates on the character list of the string. -/
def charsToNat (cs : List Char) : Nat :=
  cs.foldl (fun n c => 10 * n + (c.toNat - '0'.toNat)) 0

/-- Model of `parse_camelot` from graph/scoring.py: `'8A' -> (8, 'A')`.  `key[-1]` is
the last character and `int(key[:-1])` the leading digits; Track validation
guarantees the pattern `^\d{1,2}[AB]$` (1-2 digits then 'A'/'B'), on which
this agrees with the Python slicing/`int` (which would raise otherwise). -/
def parse_camelot (key : String) : Nat × Char :=
  (charsToNat key.data.dropLast, key.data.getLastD 'A')

/-- Model of `camelot_distance` from graph/scoring.py: circular distance on the
Camelot wheel (1-12, wrapping): `min(abs(a - b), 12 - abs(a - b))`. -/
def camelot_distance (a b : Int) : Int :=
  minI (absI (a - b)) (12 - absI (a - b))

/-- Model of `harmonic_score` from graph/scoring.py (Python defaults
`conf_a = conf_b = 1.0` are passed explicitly by Lean callers). -/
def harmonic_score (key_a key_b : String) (conf_a conf_b : ℚ) : ℚ :=
  let pa := parse_camelot key_a
  let pb := parse_camelot key_b
  let num_a : Int := pa.1
  let mode_a := pa.2
  let num_b : Int := pb.1
  let mode_b := pb.2
  let score : ℚ :=
    if key_a = key_b then 1.0
    else if num_a = num_b ∧ mode_a ≠ mode_b then 0.8
    else if mode_a = mode_b then
      let dist := camelot_distance num_a num_b
      if dist = 1 then 0.85
      else if dist = 2 then 0.5
      else 0.1
    else if mode_a ≠ mode_b then
      let dist := camelot_distance num_a num_b
      if dist = 1 then 0.4
      else 0.1
    else 0.1
  let min_conf := minQ conf_a conf_b
  if min_conf < 0.7 then score * min_conf else score

/-- Model of `bpm_score` from graph/scoring.py (defaults
`stability_a = stability_b = 1.0` passed explicitly). -/
def bpm_score (bpm_a bpm_b stability_a stability_b : ℚ) : ℚ :=
  let r := maxQ bpm_a bpm_b / minQ bpm_a bpm_b
  let score : ℚ :=
    if 1.95 ≤ r ∧ r ≤ 2.05 then 0.6
    else
      let pct_diff := absQ (r - 1.0)
      if pct_diff ≤ 0.02 then 1.0
      else if pct_diff ≤ 0.04 then 0.8
      else if pct_diff ≤ 0.06 then 0.5
      else if pct_diff ≤ 0.10 then 0.2
      else 0.05
  if stability_a < 0.8 ∨ stability_b < 0.8 then score * 0.8 else score

/-- Model of `energy_score` from graph/scoring.py (`mode` defaults to "smooth"). -/
def energy_score (energy_a energy_b : ℚ) (mode : String) : ℚ :=
  let diff := absQ (energy_a - energy_b)
  if mode = "smooth" then
    if diff ≤ 0.10 then 1.0
    else if diff ≤ 0.20 then 0.8
    else if diff ≤ 0.35 then 0.5
    else 0.2
  else if mode = "arc" then 1.0 - diff
  else 1.0 - diff

/-- Python `dict.get` on a string-pair-keyed table (first matching key wins;
the source tables have no duplicate keys). -/
def dictGet : List ((String × String) × ℚ) → (String × String) → Option ℚ
  | [], _ => none
  | e :: rest, k => if e.1 = k then some e.2 else dictGet rest k

/-- Model of `GROOVE_COMPATIBILITY` lookup table from graph/scoring.py. -/
def GROOVE_COMPATIBILITY : List ((String × String) × ℚ) :=
  [(("four_on_floor", "four_on_floor"), 1.0),
   (("breakbeat", "breakbeat"), 1.0),
   (("half_time", "half_time"), 1.0),
   (("complex", "complex"), 1.0),
   (("syncopated", "syncopated"), 1.0),
   (("straight", "straight"), 1.0),
   (("four_on_floor", "straight"), 0.7),
   (("breakbeat", "syncopated"), 0.7),
   (("breakbeat", "complex"), 0.6),
   (("four_on_floor", "half_time"), 0.5),
   (("straight", "half_time"), 0.5),
   (("syncopated", "complex"), 0.5),
   (("four_on_floor", "breakbeat"), 0.3),
   (("four_on_floor", "syncopated"), 0.3),
   (("half_time", "breakbeat"), 0.3),
   (("straight", "syncopated"), 0.3),
   (("straight", "breakbeat"), 0.3),
   (("four_on_floor", "complex"), 0.2),
   (("half_time", "complex"), 0.2),
   (("half_time", "syncopated"), 0.2),
   (("straight", "complex"), 0.2)]

/-- Model of `groove_score` from graph/scoring.py: table lookup with symmetric
fallback, default 0.3. -/
def groove_score (groove_a groove_b : String) : ℚ :=
  match dictGet GROOVE_COMPATIBILITY (groove_a, groove_b) with
  | some v => v
  | none =>
    match dictGet GROOVE_COMPATIBILITY (groove_b, groove_a) with
    | some v => v
    | none => 0.3

/-- Model of `FREQUENCY_COMPATIBILITY` lookup table from graph/scoring.py. -/
def FREQUENCY_COMPATIBILITY : List ((String × String) × ℚ) :=
  [(("bass_heavy", "bass_heavy"), 1.0),
   (("bright", "bright"), 1.0),
   (("mid_focused", "mid_focused"), 1.0),
   (("balanced", "balanced"), 1.0),
   (("balanced", "bass_heavy"), 0.7),
   (("balanced", "bright"), 0.7),
   (("balanced", "mid_focused"), 0.7),
   (("mid_focused", "bass_heavy"), 0.5),
   (("mid_focused", "bright"), 0.5),
   (("bass_heavy", "bright"), 0.3)]

/-- Model of `frequency_score` from graph/scoring.py: table lookup with symmetric
fallback, default 0.5. -/
def frequency_score (freq_a freq_b : String) : ℚ :=
  match dictGet FREQUENCY_COMPATIBILITY (freq_a, freq_b) with
  | some v => v
  | none =>
    match dictGet FREQUENCY_COMPATIBILITY (freq_b, freq_a) with
    | some v => v
    | none => 0.5

/-- Model of `mix_quality_score` from graph/scoring.py:
`(mix_out_a + mix_in_b) / 2.0`. -/
def mix_quality_score (mix_out_a mix_in_b : ℚ) : ℚ :=
  (mix_out_a + mix_in_b) / 2.0

/-- The `EdgeScores(...)` construction inside `compute_compatibility`
(graph/scoring.py): all six sub-scores of the directional pair A→B. -/
def edge_scores_of (track_a track_b : Track) : EdgeScores where
  harmonic := harmonic_score track_a.dj_metrics.key track_b.dj_metrics.key
    track_a.dj_metrics.key_confidence track_b.dj_metrics.key_confidence
  bpm := bpm_score track_a.dj_metrics.bpm track_b.dj_metrics.bpm
    track_a.dj_metrics.bpm_stability track_b.dj_metrics.bpm_stability
  energy := energy_score track_a.spotify_style.energy
    track_b.spotify_style.energy "smooth"
  groove := groove_score track_a.dj_metrics.groove_type
    track_b.dj_metrics.groove_type
  frequency := frequency_score track_a.dj_metrics.frequency_weight
    track_b.dj_metrics.frequency_weight
  mix_quality := mix_quality_score track_a.dj_metrics.mix_out_score
    track_b.dj_metrics.mix_in_score

/-- The weighted aggregate of `compute_compatibility`. -/
def aggregate_score (scores : EdgeScores) (weights : Weights) : ℚ :=
  scores.harmonic * weights.harmonic
    + scores.bpm * weights.bpm
    + scores.energy * weights.energy
    + scores.groove * weights.groove
    + scores.frequency * weights.frequency
    + scores.mix_quality * weights.mix_quality

/-- Model of `compute_compatibility` from graph/scoring.py: returns
`(aggregate_score, score_breakdown)`; uses `config.normalized_weights()` if a
config is provided, else `DEFAULT_WEIGHTS`. -/
def compute_compatibility (track_a track_b : Track)
    (config : Option SuggestionConfig) : ℚ × EdgeScores :=
  let scores := edge_scores_of track_a track_b
  let weights :=
    match config with
    | some c => c.normalized_weights
    | none => DEFAULT_WEIGHTS
  (aggregate_score scores weights, scores)

/-- Checked variant of `compute_compatibility`: when a config whose weights
sum to 0 is supplied, `normalized_weights` raises `ZeroDivisionError`
mid-computation (after the sub-scores were built), modelled as `none`. -/
def compute_compatibility_checked (track_a track_b : Track)
    (config : Option SuggestionConfig) : Option (ℚ × EdgeScores) :=
  let scores := edge_scores_of track_a track_b
  match config with
  | some c =>
    match c.normalized_weights_checked with
    | none => none
    | some w => some (aggregate_score scores w, scores)
  | none => some (aggregate_score scores DEFAULT_WEIGHTS, scores)

/-! ## graph/graph.py -/

/-- Model of `Edge` from db/models.py, as stored by `TrackGraph`.  The random `id`
UUID is omitted (it carries no information); `source_id`/`target_id` are the
endpoint track ids, `compatibility_score` the weighted aggregate and `scores`
the component breakdown. -/
structure EdgeT where
  source_id : Nat
  target_id : Nat
  compatibility_score : ℚ
  scores : EdgeScores
  is_user_created : Bool
deriving DecidableEq, Repr

/-- Model of `TrackGraph` state: the node list (a NetworkX `DiGraph` keyed by track
id preserves insertion order, so nodes are a list with pairwise-distinct
ids) and the stored edge list. -/
structure TrackGraph where
  nodes : List Track
  edges : List EdgeT
deriving Repr

/-- A fresh `TrackGraph()`. -/
def emptyGraph : TrackGraph := { nodes := [], edges := [] }

/-- Model of `TrackGraph.add_node`: inserting under an existing id overwrites that
node's stored track (dict semantics), otherwise appends. -/
def TrackGraph.add_node (g : TrackGraph) (track : Track) : TrackGraph :=
  if g.nodes.any (fun t => t.id = track.id) then
    { g with nodes := g.nodes.map (fun t => if t.id = track.id then track else t) }
  else
    { g with nodes := g.nodes ++ [track] }

/-- Model of `add_node` over a list of tracks, in order. -/
def TrackGraph.add_nodes (g : TrackGraph) (tracks : List Track) : TrackGraph :=
  tracks.foldl TrackGraph.add_node g

/-- Model of `self._graph.has_edge(s, t)` on a stored edge list. -/
def edgesHas (es : List EdgeT) (s t : Nat) : Bool :=
  es.any (fun e => e.source_id = s ∧ e.target_id = t)

/-- Model of `TrackGraph.add_edge`: stores a pre-computed edge. -/
def TrackGraph.add_edge (g : TrackGraph) (e : EdgeT) : TrackGraph :=
  { g with edges := g.edges ++ [e] }

/-- Model of `TrackGraph._bpm_compatible` from graph/graph.py with the default
`max_ratio = 0.12`: quick BPM pre-filter. -/
def bpm_compatible (bpm_a bpm_b : ℚ) : Bool :=
  if bpm_a ≤ 0 ∨ bpm_b ≤ 0 then true
  else
    let r := maxQ bpm_a bpm_b / minQ bpm_a bpm_b
    if r ≤ 1.0 + 0.12 then true
    else if 1.90 ≤ r ∧ r ≤ 2.10 then true
    else false

/-- The `Edge(...)` built by the compute methods for a scored pair. -/
def mkEdge (a b : Track) (cfg : Option SuggestionConfig) : EdgeT :=
  let sc := compute_compatibility a b cfg
  { source_id := a.id
    target_id := b.id
    compatibility_score := sc.1
    scores := sc.2
    is_user_created := false }

/-- Model of `TrackGraph.compute_edges` from graph/graph.py: for every ordered pair of
distinct node positions (`if i == j: continue`), skip existing edges, apply
the BPM pre-filter, score, and store the edge when `score >= threshold`.
The graph is threaded through the double loop because `has_edge` consults
edges added earlier in the same call. -/
def TrackGraph.compute_edges (g : TrackGraph) (threshold : ℚ)
    (config : Option SuggestionConfig) : TrackGraph :=
  let nodes := g.nodes
  ((nodes.enum.product nodes.enum)).foldl
    (fun acc p =>
      if p.1.1 = p.2.1 then acc
      else if edgesHas acc.edges p.1.2.id p.2.2.id then acc
      else if ¬ (bpm_compatible p.1.2.dj_metrics.bpm p.2.2.dj_metrics.bpm = true) then acc
      else if threshold ≤ (compute_compatibility p.1.2 p.2.2 config).1 then
        acc.add_edge (mkEdge p.1.2 p.2.2 config)
      else acc)
    g

/-- Model of `TrackGraph.compute_edges_for_new_tracks` from graph/graph.py: for each
(new track, existing node) pair, skip same-id, apply the BPM pre-filter once
(it is symmetric in its two arguments), then handle the `new -> existing`
direction and, unless the existing track is itself new, the
`existing -> new` direction. -/
def TrackGraph.compute_edges_for_new_tracks (g : TrackGraph)
    (new_tracks : List Track) (threshold : ℚ)
    (config : Option SuggestionConfig) : TrackGraph :=
  let all_nodes := g.nodes
  let new_ids := new_tracks.map Track.id
  (new_tracks.product all_nodes).foldl
    (fun acc p =>
      let nt := p.1
      let et := p.2
      if nt.id = et.id then acc
      else if ¬ (bpm_compatible nt.dj_metrics.bpm et.dj_metrics.bpm = true) then acc
      else
        let acc1 :=
          if edgesHas acc.edges nt.id et.id then acc
          else if threshold ≤ (compute_compatibility nt et config).1 then
            acc.add_edge (mkEdge nt et config)
          else acc
        if et.id ∈ new_ids then acc1
        else if edgesHas acc1.edges et.id nt.id then acc1
        else if threshold ≤ (compute_compatibility et nt config).1 then
          acc1.add_edge (mkEdge et nt config)
        else acc1)
    g

/-- Canonical single-pair processor shared by both edge-computation methods:
skip when the endpoint ids coincide, when the edge already exists, or when
the BPM pre-filter rejects; otherwise score and store when the score
reaches the threshold.  Both `compute_edges` (under distinct node ids) and
`compute_edges_for_new_tracks` reduce to folds of this step over their
respective directed-pair lists. -/
def tryAdd (threshold : ℚ) (config : Option SuggestionConfig)
    (g : TrackGraph) (p : Track × Track) : TrackGraph :=
  if p.1.id = p.2.id then g
  else if edgesHas g.edges p.1.id p.2.id then g
  else if ¬ (bpm_compatible p.1.dj_metrics.bpm p.2.dj_metrics.bpm = true) then g
  else if threshold ≤ (compute_compatibility p.1 p.2 config).1 then
    g.add_edge (mkEdge p.1 p.2 config)
  else g

/-- Fold of `tryAdd` over an ordered list of directed candidate pairs. -/
def processPairs (threshold : ℚ) (config : Option SuggestionConfig)
    (g : TrackGraph) (L : List (Track × Track)) : TrackGraph :=
  L.foldl (tryAdd threshold config) g

/-- The directed pairs scanned by `compute_edges`: all ordered pairs of
distinct node positions. -/
def cePairs (ns : List Track) : List (Track × Track) :=
  (ns.enum.product ns.enum).filterMap
    (fun pq => if pq.1.1 = pq.2.1 then none else some (pq.1.2, pq.2.2))

/-- The directed pairs scanned by `compute_edges_for_new_tracks` over its
(new × existing) product: the `new -> existing` direction always, the
`existing -> new` direction only when the existing track is not new. -/
def cefntDirPairs (new_ids : List Nat) : List (Track × Track) → List (Track × Track)
  | [] => []
  | p :: rest =>
    (p.1, p.2) ::
      (if p.2.id ∈ new_ids then cefntDirPairs new_ids rest
       else (p.2, p.1) :: cefntDirPairs new_ids rest)

/-- The pure per-pair outcome of `tryAdd` relative to a fixed prior edge
list: the edge produced, if any. -/
def addF (threshold : ℚ) (config : Option SuggestionConfig)
    (es : List EdgeT) (p : Track × Track) : Option EdgeT :=
  if ¬ p.1.id = p.2.id ∧ edgesHas es p.1.id p.2.id = false
      ∧ bpm_compatible p.1.dj_metrics.bpm p.2.dj_metrics.bpm = true
      ∧ threshold ≤ (compute_compatibility p.1 p.2 config).1
  then some (mkEdge p.1 p.2 config) else none

/-! ## graph/pathfinding.py -/

/-- Model of `total_compatibility` from graph/pathfinding.py: sum of consecutive
compatibility scores (`sum(compat(ordered[i], ordered[i+1]))` is the sum
over adjacent pairs, obtained here by zipping the list with its tail). -/
def total_compatibility (ordered : List Track)
    (config : Option SuggestionConfig) : ℚ :=
  if ordered.length < 2 then 0
  else ((ordered.zip ordered.tail).map
    (fun p => (compute_compatibility p.1 p.2 config).1)).sum

/-- The 2-opt candidate `result[:i] + result[i:j+1][::-1] + result[j+1:]`. -/
def reverseSegment (l : List Track) (i j : Nat) : List Track :=
  l.take i ++ ((l.drop i).take (j + 1 - i)).reverse ++ l.drop (j + 1)

/-- The `(i, j)` pairs scanned by one sweep of `two_opt_improve` over a list
of length `n`: `i in range(1, n-1)`, `j in range(i+1, n)`.  Segment reversal
preserves length, so the Python ranges (re-read from the current list) are
constant throughout a sweep. -/
def twoOptPairs (n : Nat) : List (Nat × Nat) :=
  (List.range' 1 (n - 2)).flatMap
    (fun i => (List.range' (i + 1) (n - 1 - i)).map (fun j => (i, j)))

/-- One sweep of the nested `for i / for j` loops of `two_opt_improve`:
state is `(result, best_score, improved)`. -/
def twoOptSweep (config : Option SuggestionConfig) (n : Nat)
    (st : List Track × ℚ × Bool) : List Track × ℚ × Bool :=
  (twoOptPairs n).foldl
    (fun st p =>
      let new_order := reverseSegment st.1 p.1 p.2
      let new_score := total_compatibility new_order config
      if st.2.1 < new_score then (new_order, new_score, true) else st)
    st

/-- The `while improved and iteration < max_iterations` loop of
`two_opt_improve`, with the remaining iteration budget as fuel. -/
def twoOptLoop (config : Option SuggestionConfig) (n : Nat) :
    Nat → List Track → ℚ → List Track
  | 0, result, _ => result
  | fuel + 1, result, best_score =>
    let st := twoOptSweep config n (result, best_score, false)
    if st.2.2 then twoOptLoop config n fuel st.1 st.2.1
    else st.1

/-- Model of `two_opt_improve` from graph/pathfinding.py. -/
def two_opt_improve (ordered : List Track) (max_iterations : Nat)
    (config : Option SuggestionConfig) : List Track :=
  if ordered.length < 3 then ordered
  else twoOptLoop config ordered.length max_iterations ordered
    (total_compatibility ordered config)

/-- First element of `l` maximizing `f` (Python's `max(l, key=f)`: later
elements replace the current best only when strictly greater).  Returns
`none` on the empty list, where Python `max` raises. -/
def argmaxBy (f : Track → ℚ) : List Track → Option Track
  | [] => none
  | t :: rest =>
    some (rest.foldl (fun best c => if f best < f c then c else best) t)

/-- First element of `l` minimizing `f` (Python's `min(l, key=f)`). -/
def argminBy (f : Track → ℚ) : List Track → Option Track
  | [] => none
  | t :: rest =>
    some (rest.foldl (fun best c => if f c < f best then c else best) t)

/-- The greedy selection loop of `greedy_order`: repeatedly append the
unvisited track maximizing compatibility with the current last track.  The
remaining list plays the role of the Python `remaining` index set; fuel is
its size. -/
def greedyLoop (config : Option SuggestionConfig) :
    Nat → Track → List Track → List Track
  | 0, _, _ => []
  | _ + 1, _, [] => []
  | fuel + 1, current, remaining =>
    match argmaxBy (fun t => (compute_compatibility current t config).1) remaining with
    | none => []
    | some best =>
      best :: greedyLoop config fuel best (remaining.filter (fun t => ¬ t.id = best.id))

/-- Model of `greedy_order` from graph/pathfinding.py.  Ties in the `max`/`key=`
selections are broken by list position (Python iterates its index set in
ascending order for small int sets). -/
def greedy_order (tracks : List Track) (start : Option Track)
    (config : Option SuggestionConfig) : List Track :=
  if tracks.length ≤ 1 then tracks
  else
    let firstOpt :=
      match start with
      | some s =>
        match tracks.find? (fun t => t.id = s.id) with
        | some t => some t
        | none => argmaxBy (fun t => t.spotify_style.energy) tracks
      | none => argmaxBy (fun t => t.spotify_style.energy) tracks
    match firstOpt with
    | none => tracks
    | some first =>
      first :: greedyLoop config tracks.length first
        (tracks.filter (fun t => ¬ t.id = first.id))

/-- Model of `optimal_order` from graph/pathfinding.py: greedy + 2-opt refinement. -/
def optimal_order (tracks : List Track) (start : Option Track)
    (config : Option SuggestionConfig) (max_2opt_iterations : Nat) : List Track :=
  two_opt_improve (greedy_order tracks start config) max_2opt_iterations config

/-! ## graph/clustering.py -/

/-- Model of `Cluster` from db/models.py. -/
structure Cluster where
  id : Int
  label : String
  track_ids : List Nat
  centroid : List ℚ
  avg_bpm : ℚ
  avg_energy : ℚ
  dominant_key : String
  dominant_groove : String
  dominant_frequency_weight : String
  track_count : Nat
deriving DecidableEq, Repr

/-- Model of `GROOVE_ORDINALS` from graph/clustering.py. -/
def GROOVE_ORDINALS : List (String × ℚ) :=
  [("four_on_floor", 0.0),
   ("straight", 0.17),
   ("half_time", 0.33),
   ("breakbeat", 0.50),
   ("syncopated", 0.67),
   ("complex", 0.83)]

/-- Python `dict.get` on a string-keyed table. -/
def dictGetS : List (String × ℚ) → String → Option ℚ
  | [], _ => none
  | e :: rest, k => if e.1 = k then some e.2 else dictGetS rest k

/-- Model of `track_to_vector` from graph/clustering.py: the 7-dimensional clustering
feature vector. -/
def track_to_vector (track : Track) : List ℚ :=
  [track.spotify_style.energy,
   track.spotify_style.danceability,
   track.spotify_style.valence,
   track.dj_metrics.bpm / 200.0,
   track.spotify_style.acousticness,
   track.spotify_style.instrumentalness,
   (dictGetS GROOVE_ORDINALS track.dj_metrics.groove_type).getD 0.5]

/-- Distinct values of a list in first-occurrence order (the key order of a
Python `Counter`/dict built by one left-to-right pass). -/
def firstDedupAux [DecidableEq α] (seen : List α) : List α → List α
  | [] => []
  | x :: rest =>
    if x ∈ seen then firstDedupAux seen rest
    else x :: firstDedupAux (x :: seen) rest

/-- Distinct values in first-occurrence order. -/
def firstDedup [DecidableEq α] (l : List α) : List α := firstDedupAux [] l

/-- Model of `_mode` from graph/clustering.py: the most common value
(`Counter.most_common`, ties broken by first occurrence since Python's sort
is stable over insertion order), `"unknown"` for the empty list. -/
def modeStr (values : List String) : String :=
  match firstDedup values with
  | [] => "unknown"
  | c :: rest =>
    rest.foldl (fun best x => if values.count best < values.count x then x else best) c

/-- Python `str.replace("_", " ")` (single-character pattern, so a
character-wise map). -/
def replaceUnderscores (s : String) : String :=
  ⟨s.data.map (fun c => if c = '_' then ' ' else c)⟩

/-- Character stream of Python `str.title()`: a letter is uppercased when the
previous character is not a letter, lowercased otherwise. -/
def titleChars : Bool → List Char → List Char
  | _, [] => []
  | prevAlpha, c :: rest =>
    (if prevAlpha then c.toLower else c.toUpper) :: titleChars c.isAlpha rest

/-- Python `str.title()`. -/
def titleCase (s : String) : String := ⟨titleChars false s.data⟩

/-- Model of `label_cluster` from graph/clustering.py.  `int(avg_bpm)` truncates
toward zero; BPM is validated positive, so this is the floor. -/
def label_cluster (tracks : List Track) : String :=
  if tracks = [] then "Empty Cluster"
  else
    let avg_energy := ((tracks.map (fun t => t.spotify_style.energy)).sum) / tracks.length
    let avg_bpm := ((tracks.map (fun t => t.dj_metrics.bpm)).sum) / tracks.length
    let dominant_groove := modeStr (tracks.map (fun t => t.dj_metrics.groove_type))
    let dominant_freq := modeStr (tracks.map (fun t => t.dj_metrics.frequency_weight))
    let energy_label :=
      if 0.7 < avg_energy then "High Energy"
      else if 0.4 < avg_energy then "Mid Energy"
      else "Low Energy"
    let groove_display := titleCase (replaceUnderscores dominant_groove)
    let freq_display := titleCase (replaceUnderscores dominant_freq)
    energy_label ++ " " ++ toString avg_bpm.floor ++ " BPM "
      ++ groove_display ++ " " ++ freq_display

/-- Componentwise mean of a list of equal-length vectors
(`ndarray.mean(axis=0)`). -/
def meanVector : List (List ℚ) → List ℚ
  | [] => []
  | v :: rest =>
    (rest.foldl (fun acc w => acc.zipWith (· + ·) w) v).map
      (fun x => x / (rest.length + 1))

/-- Ascending insertion into a sorted `Int` list. -/
def insertAscInt (x : Int) : List Int → List Int
  | [] => [x]
  | y :: rest => if x ≤ y then x :: y :: rest else y :: insertAscInt x rest

/-- Ascending sort of an `Int` list (`sorted(...)` in the source; the sorted
keys are distinct, so stability is irrelevant). -/
def sortIntsAsc (l : List Int) : List Int := l.foldr insertAscInt []

/-- Model of `cluster_tracks` from graph/clustering.py.  The scikit-learn
`StandardScaler` + `DBSCAN(metric="cosine")` fit is an external library
call; its output is the `labels` argument — one integer label per track in
order, `-1` (or any negative) meaning noise.  Everything after
`fit_predict` is translated from the source: the in-place `cluster_id`
assignment (`label if label >= 0 else None`), grouping of non-noise tracks
by label (for a non-noise track the assigned `cluster_id` equals its
label), and construction of one `Cluster` per label in ascending order. -/
def cluster_tracks (tracks : List Track) (labels : List Int)
    (min_samples : Nat) : List Track × List Cluster :=
  if tracks.length < min_samples then (tracks, [])
  else
    let pairs := tracks.zip labels
    let updated := pairs.map (fun p =>
      { p.1 with cluster_id := if 0 ≤ p.2 then some p.2 else none })
    let cluster_labels := sortIntsAsc (firstDedup (labels.filter (fun l => 0 ≤ l)))
    let clusters := cluster_labels.map (fun cid =>
      let members := updated.filter (fun t => t.cluster_id = some cid)
      ({ id := cid,
         label := label_cluster members,
         track_ids := members.map Track.id,
         centroid := meanVector (members.map track_to_vector),
         avg_bpm := ((members.map (fun t => t.dj_metrics.bpm)).sum) / members.length,
         avg_energy := ((members.map (fun t => t.spotify_style.energy)).sum) / members.length,
         dominant_key := modeStr (members.map (fun t => t.dj_metrics.key)),
         dominant_groove := modeStr (members.map (fun t => t.dj_metrics.groove_type)),
         dominant_frequency_weight :=
           modeStr (members.map (fun t => t.dj_metrics.frequency_weight)),
         track_count := members.length } : Cluster))
    (updated, clusters)

/-! ## suggestions/filters.py, strategies.py, engine.py -/

/-- Model of `SuggestionResult` from db/models.py. -/
structure SuggestionResult where
  track_id : Nat
  final_score : ℚ
  base_compatibility : ℚ
  strategy_modifier : ℚ
  context_modifier : ℚ
  diversity_bonus : ℚ
  score_breakdown : EdgeScores
deriving DecidableEq, Repr

/-- Model of `apply_filters` from suggestions/filters.py: BPM range, key lock
(`harmonic_score >= 0.4` with default confidences), groove lock, cluster
exclusion (a `None` cluster id is never in an int list). -/
def apply_filters (candidates : List Track) (current_track : Track)
    (config : SuggestionConfig) : List Track :=
  let result := candidates
  let result :=
    match config.bpm_min with
    | some m => result.filter (fun t => m ≤ t.dj_metrics.bpm)
    | none => result
  let result :=
    match config.bpm_max with
    | some m => result.filter (fun t => t.dj_metrics.bpm ≤ m)
    | none => result
  let result :=
    if config.key_lock then
      result.filter (fun t =>
        (0.4 : ℚ) ≤ harmonic_score current_track.dj_metrics.key t.dj_metrics.key 1.0 1.0)
    else result
  let result :=
    if config.groove_lock then
      result.filter (fun t =>
        t.dj_metrics.groove_type = current_track.dj_metrics.groove_type)
    else result
  let result :=
    if ¬ config.exclude_cluster_ids = [] then
      result.filter (fun t =>
        match t.cluster_id with
        | some c => decide (¬ c ∈ config.exclude_cluster_ids)
        | none => true)
    else result
  result

/-- Model of `harmonic_flow_modifier` from suggestions/strategies.py. -/
def harmonic_flow_modifier (_candidate _current : Track) : ℚ := 1.0

/-- Model of `energy_arc_modifier` from suggestions/strategies.py. -/
def energy_arc_modifier (candidate _current : Track)
    (sequence_position estimated_set_length : Nat) : ℚ :=
  if estimated_set_length = 0 then 1.0
  else
    let set_progress := minQ 1.0 ((sequence_position : ℚ) / (max 1 estimated_set_length : Nat))
    let target_energy :=
      if set_progress < 0.3 then 0.5 + set_progress * 0.5
      else if set_progress < 0.7 then 0.7 + set_progress * 0.3
      else 0.9 - (set_progress - 0.7) * 1.5
    let target_energy := maxQ 0.0 (minQ 1.0 target_energy)
    let energy_fit := 1.0 - absQ (candidate.spotify_style.energy - target_energy)
    0.5 + 0.5 * energy_fit

/-- Model of `discovery_modifier` from suggestions/strategies.py. -/
def discovery_modifier (candidate _current : Track) : ℚ :=
  if candidate.times_used = 0 then 1.3
  else if candidate.times_used < 3 then 1.15
  else 1.0

/-- Model of `groove_lock_modifier` from suggestions/strategies.py. -/
def groove_lock_modifier (candidate current : Track) : ℚ :=
  if candidate.dj_metrics.groove_type = current.dj_metrics.groove_type then 1.2
  else 0.6

/-- Model of `contrast_modifier` from suggestions/strategies.py. -/
def contrast_modifier (candidate current : Track) : ℚ :=
  let modifier : ℚ :=
    if 0.3 < absQ (candidate.spotify_style.energy - current.spotify_style.energy)
    then 1.2 else 1.0
  if ¬ candidate.dj_metrics.frequency_weight = current.dj_metrics.frequency_weight
  then modifier * 1.1 else modifier

/-- Model of `STRATEGY_MODIFIERS` dispatch (`get_strategy_modifier`) from
suggestions/strategies.py, applied with the keyword context the engine
passes (`sequence_position`, `estimated_set_length`). -/
def get_strategy_modifier (strategy : SuggestionStrategy)
    (candidate current : Track)
    (sequence_position estimated_set_length : Nat) : ℚ :=
  match strategy with
  | SuggestionStrategy.HARMONIC_FLOW => harmonic_flow_modifier candidate current
  | SuggestionStrategy.ENERGY_ARC =>
    energy_arc_modifier candidate current sequence_position estimated_set_length
  | SuggestionStrategy.DISCOVERY => discovery_modifier candidate current
  | SuggestionStrategy.GROOVE_LOCK => groove_lock_modifier candidate current
  | SuggestionStrategy.CONTRAST => contrast_modifier candidate current

/-- Python slice `l[-k:]`. -/
def lastN (k : Nat) (l : List α) : List α := l.drop (l.length - k)

/-- The non-null cluster ids of the last three sequence tracks
(the `recent_clusters` comprehension in suggestions/engine.py). -/
def recent3Clusters (l : List Track) : List Int :=
  (lastN 3 l).filterMap Track.cluster_id

/-- Model of `sequence_context_modifier` from suggestions/engine.py. -/
def sequence_context_modifier (candidate : Track)
    (last_n_tracks : List Track) : ℚ :=
  let modifier : ℚ := 1.0
  let modifier :=
    if 1 ≤ last_n_tracks.length ∧
        candidate.dj_metrics.key ∈ (lastN 2 last_n_tracks).map (fun t => t.dj_metrics.key)
    then modifier * 0.8 else modifier
  let modifier :=
    if 1 ≤ last_n_tracks.length ∧
        (∃ c, candidate.cluster_id = some c ∧ c ∈ recent3Clusters last_n_tracks)
    then modifier * 0.85 else modifier
  let modifier :=
    if 4 ≤ last_n_tracks.length ∧
        ∀ g ∈ (lastN 4 last_n_tracks).map (fun t => t.dj_metrics.groove_type),
          g = candidate.dj_metrics.groove_type
    then modifier * 0.9 else modifier
  modifier

/-- Model of `diversity_bonus_score` from suggestions/engine.py: 0 when the bonus is
non-positive or there is no history; otherwise the bonus iff the candidate
has a cluster id not among the last three tracks' (non-null) cluster ids. -/
def diversity_bonus_score (candidate : Track) (last_n_tracks : List Track)
    (bonus : ℚ) : ℚ :=
  if bonus ≤ 0 ∨ last_n_tracks = [] then 0
  else
    match candidate.cluster_id with
    | some c => if ¬ c ∈ recent3Clusters last_n_tracks then bonus else 0
    | none => 0

/-- The per-candidate body of `SuggestionEngine.suggest` (steps 3-6):
base score, strategy modifier (with `estimated_set_length = 20`), context
modifier, diversity bonus, and
`final = base_score * strat_mod * ctx_mod + div_bonus`. -/
def scoreCandidate (current_track : Track) (sequence : List Track)
    (config : SuggestionConfig) (candidate : Track) : SuggestionResult :=
  let base := compute_compatibility current_track candidate (some config)
  let strat_mod :=
    get_strategy_modifier config.strategy candidate current_track sequence.length 20
  let ctx_mod := sequence_context_modifier candidate sequence
  let div_bonus := diversity_bonus_score candidate sequence config.diversity_bonus
  { track_id := candidate.id
    final_score := base.1 * strat_mod * ctx_mod + div_bonus
    base_compatibility := base.1
    strategy_modifier := strat_mod
    context_modifier := ctx_mod
    diversity_bonus := div_bonus
    score_breakdown := base.2 }

/-- Stable insertion into a list sorted descending by `final_score` (the new
element goes before the first entry whose score is not greater, so an
earlier-constructed result precedes later ones with equal score). -/
def insertByFinalDesc (r : SuggestionResult) :
    List SuggestionResult → List SuggestionResult
  | [] => [r]
  | s :: rest =>
    if s.final_score ≤ r.final_score then r :: s :: rest
    else s :: insertByFinalDesc r rest

/-- Model of `results.sort(key=lambda r: r.final_score, reverse=True)`: Python's sort
is stable and descending by `final_score`; modelled by stable insertion
sort, which satisfies the same specification. -/
def sortByFinalDesc (l : List SuggestionResult) : List SuggestionResult :=
  l.foldr insertByFinalDesc []

/-- Model of `SuggestionEngine.suggest` from suggestions/engine.py (the engine's
track pool and the `sequence`/`config` defaults are passed explicitly). -/
def suggest (all_tracks : List Track) (current_track : Track)
    (sequence : List Track) (config : SuggestionConfig) : List SuggestionResult :=
  let sequence_ids := current_track.id :: sequence.map Track.id
  let candidates := all_tracks.filter (fun t => ¬ t.id ∈ sequence_ids)
  let candidates := apply_filters candidates current_track config
  if candidates = [] then []
  else
    (sortByFinalDesc (candidates.map (scoreCandidate current_track sequence config))).take
      config.num_suggestions

/-! ## suggestions/set_generator.py -/

/-- Modelled from the spec: `energy_profile: enum` of `SetBuilderConfig`.
The enum class `EnergyProfile` lives in db/models.py but is not among the
provided sources; its variants are the four `ENERGY_CURVES` keys plus
`CUSTOM`, exactly the members suggestions/set_generator.py references. -/
inductive EnergyProfile where
  | WARM_UP_PEAK_COOL
  | HIGH_ENERGY
  | CHILL_LOUNGE
  | ROLLERCOASTER
  | CUSTOM
deriving DecidableEq, Repr

/-- Modelled from the spec: `SetBuilderConfig` — `start_track_id: id|null`,
`target_minutes: float`, `energy_profile: enum`, `bpm_tolerance: float`,
optional custom energy curve points.  The class lives in db/models.py,
which is not among the provided sources for it; the fields are those the
spec lists, which are exactly the ones `SetGenerator.generate` reads. -/
structure SetBuilderConfig where
  start_track_id : Option Nat
  target_minutes : ℚ
  energy_profile : EnergyProfile
  bpm_tolerance : ℚ
  custom_energy_points : List (ℚ × ℚ)
deriving DecidableEq, Repr

/-- Model of `ENERGY_CURVES` from suggestions/set_generator.py, as a total function:
`dict.get(profile, ENERGY_CURVES[WARM_UP_PEAK_COOL])` makes the missing
`CUSTOM` key fall back to the warm-up curve. -/
def ENERGY_CURVES : EnergyProfile → List (ℚ × ℚ)
  | EnergyProfile.WARM_UP_PEAK_COOL => [(0.0, 0.4), (0.3, 0.65), (0.7, 0.9), (1.0, 0.5)]
  | EnergyProfile.HIGH_ENERGY => [(0.0, 0.7), (0.5, 0.85), (1.0, 0.75)]
  | EnergyProfile.CHILL_LOUNGE => [(0.0, 0.3), (0.5, 0.45), (1.0, 0.35)]
  | EnergyProfile.ROLLERCOASTER =>
    [(0.0, 0.4), (0.25, 0.9), (0.5, 0.5), (0.75, 0.85), (1.0, 0.4)]
  | EnergyProfile.CUSTOM => [(0.0, 0.4), (0.3, 0.65), (0.7, 0.9), (1.0, 0.5)]

/-- Whether `int(key[:-1])` and `key[-1]` succeed (nonempty digit prefix);
on failure `_camelot_distance` returns 99. -/
def camelotParseOk (key : String) : Bool :=
  ¬ key.data.dropLast = [] ∧ key.data.dropLast.all (fun c => c.isDigit)

/-- Model of `_camelot_distance` from suggestions/set_generator.py (distinct from the
scorer's `camelot_distance`): 0 same key, 1 parallel, circular distance for
same mode, circular distance plus 1 cross-mode, 99 on parse failure. -/
def sg_camelot_distance (key_a key_b : String) : Int :=
  if ¬ (camelotParseOk key_a ∧ camelotParseOk key_b) then 99
  else
    let pa := parse_camelot key_a
    let pb := parse_camelot key_b
    let num_a : Int := pa.1
    let num_b : Int := pb.1
    if key_a = key_b then 0
    else if num_a = num_b ∧ ¬ pa.2 = pb.2 then 1
    else if pa.2 = pb.2 then minI (absI (num_a - num_b)) (12 - absI (num_a - num_b))
    else minI (absI (num_a - num_b)) (12 - absI (num_a - num_b)) + 1

/-- The scan of `for i in range(len(curve) - 1)` in `_interpolate_energy`:
first segment with `x0 <= position <= x1` wins. -/
def interpSegments (position : ℚ) : List (ℚ × ℚ) → Option ℚ
  | p0 :: p1 :: rest =>
    if p0.1 ≤ position ∧ position ≤ p1.1 then
      some (p0.2 + (if p1.1 = p0.1 then 0 else (position - p0.1) / (p1.1 - p0.1)) * (p1.2 - p0.2))
    else interpSegments position (p1 :: rest)
  | _ => none

/-- Model of `_interpolate_energy` from suggestions/set_generator.py. -/
def interpolate_energy (curve : List (ℚ × ℚ)) (position : ℚ) : ℚ :=
  match curve with
  | [] => 0.5
  | first :: rest =>
    let lastPt := (first :: rest).getLastD first
    if position ≤ first.1 then first.2
    else if lastPt.1 ≤ position then lastPt.2
    else
      match interpSegments position (first :: rest) with
      | some v => v
      | none => lastPt.2

/-- The BPM guardrail of `SetGenerator.generate`: a candidate is skipped
when `abs(ratio - 1) > bpm_tolerance` against the current last track. -/
def guardrailPass (current candidate : Track) (bpm_tolerance : ℚ) : Bool :=
  let r := maxQ current.dj_metrics.bpm candidate.dj_metrics.bpm
    / minQ current.dj_metrics.bpm candidate.dj_metrics.bpm
  absQ (r - 1.0) ≤ bpm_tolerance

/-- The per-candidate combined score of `SetGenerator.generate`:
`compat * 0.4 + energy_fit * 0.4 + key_bonus * 0.2`. -/
def candidateScore (current candidate : Track) (target_energy : ℚ)
    (cfg : Option SuggestionConfig) : ℚ :=
  let key_dist := sg_camelot_distance current.dj_metrics.key candidate.dj_metrics.key
  let compat := (compute_compatibility current candidate cfg).1
  let energy_fit := maxQ 0.0 (1.0 - absQ (candidate.spotify_style.energy - target_energy) * 2.0)
  let key_bonus : ℚ := if key_dist ≤ 1 then 1.0 else if key_dist = 2 then 0.7 else 0.4
  compat * 0.4 + energy_fit * 0.4 + key_bonus * 0.2

/-- One step of `SetGenerator.generate`'s candidate selection: the guarded
arg-max (`best_score` starts at -1.0, strict improvement replaces), and on
`best_track is None` the relaxed fallback, which picks the remaining
candidate of closest energy. -/
def selectNext (current : Track) (target_energy : ℚ) (candidates : List Track)
    (bpm_tolerance : ℚ) (cfg : Option SuggestionConfig) : Option Track :=
  let best := candidates.foldl
    (fun acc candidate =>
      if ¬ guardrailPass current candidate bpm_tolerance then acc
      else
        let score := candidateScore current candidate target_energy cfg
        if acc.2 < score then (some candidate, score) else acc)
    ((none : Option Track), (-1 : ℚ))
  match best.1 with
  | some t => some t
  | none =>
    argminBy (fun t => absQ (t.spotify_style.energy - target_energy)) candidates

/-- The `while total_duration < target_seconds and len(used_ids) <
len(available)` loop of `SetGenerator.generate`.  Each pass appends exactly
one track, so `available.length` passes suffice; the extra fuel argument
only bounds that count. -/
def generateLoop (curve : List (ℚ × ℚ)) (available : List Track)
    (bpm_tolerance : ℚ) (cfg : Option SuggestionConfig) (target_seconds : ℚ) :
    Nat → List Track → List Nat → ℚ → List Track
  | 0, sequence, _, _ => sequence
  | fuel + 1, sequence, used_ids, total_duration =>
    if ¬ (total_duration < target_seconds ∧ used_ids.length < available.length) then
      sequence
    else
      match sequence.getLast? with
      | none => sequence
      | some current =>
        let set_progress := total_duration / target_seconds
        let target_energy := interpolate_energy curve set_progress
        let candidates := available.filter (fun t => ¬ t.id ∈ used_ids)
        if candidates = [] then sequence
        else
          match selectNext current target_energy candidates bpm_tolerance cfg with
          | none => sequence
          | some best =>
            generateLoop curve available bpm_tolerance cfg target_seconds fuel
              (sequence ++ [best]) (used_ids ++ [best.id])
              (total_duration + best.duration_seconds - 8.0)

/-- Model of `SetGenerator.generate` from suggestions/set_generator.py.  The
`try/except` around the final 2-opt refinement is vacuous in the embedding
(`optimal_order` is total). -/
def generate (config : SetBuilderConfig) (all_tracks : List Track)
    (suggestion_config : Option SuggestionConfig) : List Track :=
  if all_tracks = [] then []
  else
    let curve :=
      if config.energy_profile = EnergyProfile.CUSTOM ∧ ¬ config.custom_energy_points = []
      then config.custom_energy_points
      else ENERGY_CURVES config.energy_profile
    let available := all_tracks
    let startOpt :=
      match config.start_track_id with
      | some sid => available.find? (fun t => t.id = sid)
      | none => none
    let startOpt2 :=
      match startOpt with
      | some s => some s
      | none =>
        argminBy (fun t => absQ (t.spotify_style.energy - interpolate_energy curve 0.0))
          available
    match startOpt2 with
    | none => []
    | some start =>
      let target_seconds := config.target_minutes * 60
      let sequence := generateLoop curve available config.bpm_tolerance
        suggestion_config target_seconds available.length [start] [start.id]
        start.duration_seconds
      if 4 ≤ sequence.length then
        match sequence.head? with
        | some h => optimal_order sequence (some h) suggestion_config 500
        | none => sequence
      else sequence

/-! ## Concrete sample data (used by witnesses and counterexamples) -/

/-- Track constructor for concrete scenarios, in the style of the test
suite's `_make_track`: scoring-relevant fields are parameters, the
remaining features take fixed benign values. -/
def mkTrack (id : Nat) (bpm stab : ℚ) (key : String)
    (conf energy mix_in mix_out : ℚ) (groove freq : String)
    (cluster : Option Int) : Track where
  id := id
  duration_seconds := 300
  spotify_style :=
    { energy := energy
      danceability := 0.5
      acousticness := 0.1
      instrumentalness := 0.5
      valence := 0.5
      liveness := 0.1 }
  dj_metrics :=
    { bpm := bpm
      bpm_stability := stab
      key := key
      key_confidence := conf
      mix_in_score := mix_in
      mix_out_score := mix_out
      frequency_weight := freq
      groove_type := groove }
  cluster_id := cluster
  times_used := 0

/-- The six groove types (DJMetrics docstring / GROOVE_COMPATIBILITY). -/
def grooveTypes : List String :=
  ["four_on_floor", "breakbeat", "half_time", "complex", "syncopated", "straight"]

/-- The four frequency weight classes (DJMetrics docstring /
FREQUENCY_COMPATIBILITY). -/
def frequencyWeights : List String :=
  ["bass_heavy", "bright", "mid_focused", "balanced"]

/-- Track A of the spec's end-to-end scenario: 128 BPM, key "8A", energy
0.82, mix_out 0.85, four_on_floor, bass_heavy; key confidence and BPM
stability are parameters. -/
def c1TrackA (conf stab : ℚ) : Track :=
  mkTrack 1 128 stab "8A" conf 0.82 0.5 0.85 "four_on_floor" "bass_heavy" none

/-- Track B of the spec's end-to-end scenario: 127 BPM, key "9A", energy
0.70, mix_in 0.85, four_on_floor, balanced. -/
def c1TrackB (conf stab : ℚ) : Track :=
  mkTrack 2 127 stab "9A" conf 0.70 0.85 0.5 "four_on_floor" "balanced" none

/-- A pair of tracks identical in every scoring-relevant field except
`mix_in_score`/`mix_out_score`: A mixes out well (0.9) and in badly (0.1). -/
def c7TrackA : Track :=
  mkTrack 1 128 0.9 "8A" 0.9 0.6 0.1 0.9 "four_on_floor" "balanced" none

/-- Companion of `c7TrackA` with the mix scores swapped. -/
def c7TrackB : Track :=
  mkTrack 2 128 0.9 "8A" 0.9 0.6 0.9 0.1 "four_on_floor" "balanced" none

/-- Current track for the C9 witness scenario (128 BPM). -/
def c9Current : Track :=
  mkTrack 1 128 1 "8A" 1 0.5 0.5 0.5 "four_on_floor" "balanced" none

/-- Sole candidate for the C9 witness scenario: 200 BPM, ratio 1.5625
against 128, far outside a 0.12 tolerance. -/
def c9Cand : Track :=
  mkTrack 2 200 1 "8A" 1 0.8 0.5 0.5 "four_on_floor" "balanced" none

/-- Current track for the C6 scenario. -/
def c6Current : Track :=
  mkTrack 1 128 1 "8A" 1 0.5 0.5 0.5 "four_on_floor" "balanced" none

/-- Candidate for the C6 scenario: it has a (non-null) cluster id 0, and the
suggestion sequence is empty, so no sequence track carries that cluster. -/
def c6Cand : Track :=
  mkTrack 2 128 1 "8A" 1 0.5 0.5 0.5 "four_on_floor" "balanced" (some 0)

/-- Sequence track for the C6 witness scenario, in cluster 1 (different
from the candidate's cluster 0, so the diversity bonus applies). -/
def c6Seq : Track :=
  mkTrack 3 128 1 "8A" 1 0.5 0.5 0.5 "four_on_floor" "balanced" (some 1)

/-- Tracks for the C8 witness scenario (DBSCAN labels [0, 0, -1]). -/
def c8Tracks : List Track :=
  [mkTrack 1 128 1 "8A" 1 0.8 0.5 0.5 "four_on_floor" "balanced" none,
   mkTrack 2 126 1 "8A" 1 0.78 0.5 0.5 "four_on_floor" "balanced" none,
   mkTrack 3 90 1 "3B" 1 0.2 0.5 0.5 "half_time" "bright" none]

/-- A `SuggestionConfig` whose six weights are all 0 (construction places no
range or sign constraint on the weight fields). -/
def zeroWeightConfig : SuggestionConfig where
  harmonic_weight := 0
  bpm_weight := 0
  energy_weight := 0
  groove_weight := 0
  frequency_weight := 0
  mix_quality_weight := 0
  strategy := SuggestionStrategy.HARMONIC_FLOW
  bpm_min := none
  bpm_max := none
  key_lock := false
  groove_lock := false
  exclude_cluster_ids := []
  num_suggestions := 8
  diversity_bonus := 0.1

/-! ## Bridging lemmas -/

theorem minQ_eq_min (a b : ℚ) : minQ a b = min a b := by
  by_cases h : a ≤ b <;> simp [minQ, min_def, h]

theorem maxQ_eq_max (a b : ℚ) : maxQ a b = max a b := by
  rcases le_total a b with h | h
  · rcases eq_or_lt_of_le h with rfl | hlt
    · simp [maxQ]
    · simp [maxQ, max_eq_right h, not_le.mpr hlt]
  · simp [maxQ, max_eq_left h, h]

theorem absQ_eq_abs (a : ℚ) : absQ a = |a| := by
  by_cases h : a < 0
  · simp [absQ, h, abs_of_neg h]
  · simp [absQ, h, abs_of_nonneg (not_lt.mp h)]

theorem minI_eq_min (a b : Int) : minI a b = min a b := by
  by_cases h : a ≤ b <;> simp [minI, min_def, h]

theorem absI_eq_abs (a : Int) : absI a = |a| := by
  by_cases h : a < 0
  · simp [absI, h, abs_of_neg h]
  · simp [absI, h, abs_of_nonneg (not_lt.mp h)]

/-! ## C4: Camelot wrap-around -/

/-- C4: the Camelot distance of `harmonic_score` is circular over 12
positions, `min(|x−y|, 12−|x−y|)`; with full key confidence
`harmonic_score("12A","1A") = 0.85` (adjacent via wrap) and
`harmonic_score("11A","1A") = 0.50` (distance 2 via wrap), not the
fall-through value 0.10. -/
theorem camelot_wraparound :
    (∀ a b : Int, camelot_distance a b = min |a - b| (12 - |a - b|))
    ∧ camelot_distance 12 1 = 1
    ∧ camelot_distance 11 1 = 2
    ∧ harmonic_score "12A" "1A" 1 1 = 0.85
    ∧ harmonic_score "11A" "1A" 1 1 = 0.5 := by
  refine ⟨fun a b => ?_, by decide, by decide, ?_, ?_⟩
  · rw [camelot_distance, minI_eq_min, absI_eq_abs]
  · simp [harmonic_score, parse_camelot, charsToNat, camelot_distance, minI, absI, minQ]
  · simp [harmonic_score, parse_camelot, charsToNat, camelot_distance, minI, absI, minQ]

/-! ## C5: BPM half/double band -/

/-- C5: with both stabilities ≥ 0.8, `bpm_score` returns 0.6 exactly when
the tempo ratio `max/min` lies in [1.95, 2.05]; `bpm_score(128,64) = 0.6`,
`bpm_score(128,260) = 0.6` (ratio 2.03125), and `bpm_score(128,280)` (ratio
2.1875) falls through the ±2/4/6/10% ladder to 0.05. -/
theorem bpm_half_double_band (bpm_a bpm_b stability_a stability_b : ℚ)
    (hba : 0 < bpm_a) (hbb : 0 < bpm_b)
    (hsa : 0.8 ≤ stability_a) (hsb : 0.8 ≤ stability_b) :
    (bpm_score bpm_a bpm_b stability_a stability_b = 0.6 ↔
      1.95 ≤ maxQ bpm_a bpm_b / minQ bpm_a bpm_b
        ∧ maxQ bpm_a bpm_b / minQ bpm_a bpm_b ≤ 2.05)
    ∧ bpm_score 128 64 1 1 = 0.6
    ∧ bpm_score 128 260 1 1 = 0.6
    ∧ bpm_score 128 280 1 1 = 0.05 := by
  refine ⟨?_, by norm_num [bpm_score, minQ, maxQ, absQ],
    by norm_num [bpm_score, minQ, maxQ, absQ],
    by norm_num [bpm_score, minQ, maxQ, absQ]⟩
  have hs : ¬ (stability_a < 0.8 ∨ stability_b < 0.8) := by
    rintro (h | h) <;> linarith
  simp only [bpm_score, if_neg hs]
  by_cases hband : 1.95 ≤ maxQ bpm_a bpm_b / minQ bpm_a bpm_b
      ∧ maxQ bpm_a bpm_b / minQ bpm_a bpm_b ≤ 2.05
  · rw [if_pos hband]
    exact ⟨fun _ => hband, fun _ => rfl⟩
  · rw [if_neg hband]
    refine ⟨fun h => absurd ?_ hband, fun h => absurd h hband⟩
    exfalso
    split_ifs at h <;> norm_num at h

/-- Witness for C5 at `bpm_score 128 64 1 1`. -/
theorem bpm_half_double_band_witness :
    ((0:ℚ) < 128 ∧ (0:ℚ) < 64 ∧ (0.8:ℚ) ≤ 1) ∧ bpm_score 128 64 1 1 = 0.6 :=
  ⟨⟨by norm_num, by norm_num, by norm_num⟩,
    (bpm_half_double_band 128 64 1 1 (by norm_num) (by norm_num)
      (by norm_num) (by norm_num)).2.1⟩

/-! ## C7: symmetry of the lookup tables, asymmetry of the aggregate -/

/-- C7: `groove_score` and `frequency_score` are symmetric over their
enumerated types, yet the aggregate scorer is directional: the concrete
tracks `c7TrackA`/`c7TrackB`, identical except for
`mix_in_score`/`mix_out_score`, score differently in the two directions,
and for any track `a` the `mix_quality` sub-score of
`compute_compatibility(a, a)` is `(mix_out_a + mix_in_a)/2`. -/
theorem scorer_symmetry_asymmetry :
    (∀ x ∈ grooveTypes, ∀ y ∈ grooveTypes, groove_score x y = groove_score y x)
    ∧ (∀ x ∈ frequencyWeights, ∀ y ∈ frequencyWeights,
        frequency_score x y = frequency_score y x)
    ∧ (compute_compatibility c7TrackA c7TrackB none).1
        ≠ (compute_compatibility c7TrackB c7TrackA none).1
    ∧ ∀ a : Track, (compute_compatibility a a none).2.mix_quality
        = (a.dj_metrics.mix_out_score + a.dj_metrics.mix_in_score) / 2 := by
  refine ⟨?_, ?_, ?_, ?_⟩
  · intro x hx y hy
    fin_cases hx <;> fin_cases hy <;>
      simp [groove_score, GROOVE_COMPATIBILITY, dictGet]
  · intro x hx y hy
    fin_cases hx <;> fin_cases hy <;>
      simp [frequency_score, FREQUENCY_COMPATIBILITY, dictGet]
  · norm_num [compute_compatibility, edge_scores_of, aggregate_score,
      DEFAULT_WEIGHTS, harmonic_score, parse_camelot, charsToNat,
      camelot_distance, bpm_score, energy_score, groove_score,
      frequency_score, mix_quality_score, dictGet, GROOVE_COMPATIBILITY,
      FREQUENCY_COMPATIBILITY, minQ, maxQ, absQ, minI, absI, c7TrackA,
      c7TrackB, mkTrack]
  · intro a
    norm_num [compute_compatibility, edge_scores_of, mix_quality_score]

/-- Witness for C7's quantified symmetry parts at a concrete type pair. -/
theorem scorer_symmetry_asymmetry_witness :
    ("four_on_floor" ∈ grooveTypes ∧ "breakbeat" ∈ grooveTypes)
    ∧ groove_score "four_on_floor" "breakbeat"
        = groove_score "breakbeat" "four_on_floor" :=
  ⟨⟨by simp [grooveTypes], by simp [grooveTypes]⟩,
    scorer_symmetry_asymmetry.1 "four_on_floor" (by simp [grooveTypes])
      "breakbeat" (by simp [grooveTypes])⟩

/-! ## C10: weight normalization and the zero-sum config -/

/-- C10: `SuggestionConfig` places no constraint on its weight fields (the
all-zero `zeroWeightConfig` is a legal value); for any config whose weights
sum to a nonzero value, `normalized_weights` sums to 1 and the checked
variant succeeds; for the zero-sum config, `normalized_weights` — and
therefore `compute_compatibility` invoked with that config — raises
`ZeroDivisionError` mid-computation (modelled by the checked variants
returning `none`), not a construction-time validation error. -/
theorem config_weight_normalization :
    (∀ c : SuggestionConfig, c.weight_total ≠ 0 →
      c.normalized_weights.harmonic + c.normalized_weights.bpm
        + c.normalized_weights.energy + c.normalized_weights.groove
        + c.normalized_weights.frequency + c.normalized_weights.mix_quality = 1
      ∧ c.normalized_weights_checked = some c.normalized_weights)
    ∧ zeroWeightConfig.weight_total = 0
    ∧ zeroWeightConfig.normalized_weights_checked = none
    ∧ compute_compatibility_checked (c1TrackA 1 1) (c1TrackB 1 1)
        (some zeroWeightConfig) = none := by
  have hzero : zeroWeightConfig.weight_total = 0 := by
    norm_num [zeroWeightConfig, SuggestionConfig.weight_total]
  have hchk : zeroWeightConfig.normalized_weights_checked = none := by
    simp [SuggestionConfig.normalized_weights_checked, hzero]
  refine ⟨fun c hc => ⟨?_, ?_⟩, hzero, hchk, ?_⟩
  · simp only [SuggestionConfig.normalized_weights, div_add_div_same]
    exact div_self hc
  · simp [SuggestionConfig.normalized_weights_checked, hc]
  · simp [compute_compatibility_checked, hchk]

/-- Witness for C10's quantified part at the default config. -/
theorem config_weight_normalization_witness :
    defaultSuggestionConfig.weight_total ≠ 0
    ∧ (defaultSuggestionConfig.normalized_weights.harmonic
        + defaultSuggestionConfig.normalized_weights.bpm
        + defaultSuggestionConfig.normalized_weights.energy
        + defaultSuggestionConfig.normalized_weights.groove
        + defaultSuggestionConfig.normalized_weights.frequency
        + defaultSuggestionConfig.normalized_weights.mix_quality = 1
      ∧ defaultSuggestionConfig.normalized_weights_checked
          = some defaultSuggestionConfig.normalized_weights) :=
  ⟨by norm_num [defaultSuggestionConfig, SuggestionConfig.weight_total],
    config_weight_normalization.1 defaultSuggestionConfig
      (by norm_num [defaultSuggestionConfig, SuggestionConfig.weight_total])⟩

/-! ## C1: end-to-end scenario -/

theorem harmonic_8A_9A (ca cb : ℚ) (h1 : 0.7 ≤ ca) (h2 : 0.7 ≤ cb) :
    harmonic_score "8A" "9A" ca cb = 0.85 := by
  have hm : ¬ minQ ca cb < 0.7 := by
    unfold minQ; split_ifs <;> linarith
  simp [harmonic_score, parse_camelot, charsToNat, camelot_distance,
    minI, absI, hm]

theorem bpm_128_127 (sa sb : ℚ) (h1 : 0.8 ≤ sa) (h2 : 0.8 ≤ sb) :
    bpm_score 128 127 sa sb = 1 := by
  have hs : ¬ (sa < 0.8 ∨ sb < 0.8) := by rintro (h | h) <;> linarith
  norm_num [bpm_score, minQ, maxQ, absQ, hs]
  constructor <;> linarith

/-- C1: the end-to-end scenario — Track A (128 BPM, "8A", energy 0.82,
mix_out 0.85, four_on_floor, bass_heavy) into Track B (127 BPM, "9A",
energy 0.70, mix_in 0.85, four_on_floor, balanced), with key confidences
≥ 0.7 and BPM stabilities ≥ 0.8 so no penalty applies, under default
weights gives the breakdown harmonic 0.85, bpm 1.0, energy 0.8, groove 1.0,
frequency 0.7, mix_quality 0.85 and aggregate 0.88. -/
theorem end_to_end_scenario (ca cb sa sb : ℚ)
    (hca : 0.7 ≤ ca) (hcb : 0.7 ≤ cb) (hsa : 0.8 ≤ sa) (hsb : 0.8 ≤ sb) :
    compute_compatibility (c1TrackA ca sa) (c1TrackB cb sb) none =
      (0.88, { harmonic := 0.85, bpm := 1, energy := 0.8, groove := 1,
               frequency := 0.7, mix_quality := 0.85 }) := by
  have hh := harmonic_8A_9A ca cb hca hcb
  have hb := bpm_128_127 sa sb hsa hsb
  simp only [compute_compatibility, edge_scores_of, c1TrackA, c1TrackB, mkTrack]
  rw [hh, hb]
  simp [energy_score, absQ, groove_score, frequency_score, dictGet,
    GROOVE_COMPATIBILITY, FREQUENCY_COMPATIBILITY, mix_quality_score,
    aggregate_score, DEFAULT_WEIGHTS, Prod.ext_iff]
  norm_num

/-- Witness for C1 at full confidence and stability. -/
theorem end_to_end_scenario_witness :
    ((0.7:ℚ) ≤ 1 ∧ (0.8:ℚ) ≤ 1)
    ∧ compute_compatibility (c1TrackA 1 1) (c1TrackB 1 1) none =
      (0.88, { harmonic := 0.85, bpm := 1, energy := 0.8, groove := 1,
               frequency := 0.7, mix_quality := 0.85 }) :=
  ⟨⟨by norm_num, by norm_num⟩,
    end_to_end_scenario 1 1 1 1 (by norm_num) (by norm_num)
      (by norm_num) (by norm_num)⟩

/-! ## C3: 2-opt monotonicity -/

theorem foldl_preserves {σ α : Type _} (f : σ → α → σ) (P : σ → Prop)
    (h : ∀ s a, P s → P (f s a)) :
    ∀ (l : List α) (s : σ), P s → P (l.foldl f s)
  | [], _, hs => hs
  | a :: l, s, hs => foldl_preserves f P h l (f s a) (h s a hs)

theorem twoOptSweep_spec (config : Option SuggestionConfig) (n : Nat)
    (b0 : ℚ) (st : List Track × ℚ × Bool)
    (hst : st.2.1 = total_compatibility st.1 config ∧ b0 ≤ st.2.1) :
    (twoOptSweep config n st).2.1
      = total_compatibility (twoOptSweep config n st).1 config
    ∧ b0 ≤ (twoOptSweep config n st).2.1 := by
  unfold twoOptSweep
  refine foldl_preserves _
    (fun (s : List Track × ℚ × Bool) =>
      s.2.1 = total_compatibility s.1 config ∧ b0 ≤ s.2.1)
    ?_ _ _ hst
  intro s p hp
  dsimp only
  split_ifs with h
  · exact ⟨rfl, le_of_lt (lt_of_le_of_lt hp.2 h)⟩
  · exact hp

theorem twoOptLoop_ge (config : Option SuggestionConfig) (n : Nat) :
    ∀ (fuel : Nat) (res : List Track) (best : ℚ),
      best = total_compatibility res config →
      total_compatibility res config
        ≤ total_compatibility (twoOptLoop config n fuel res best) config := by
  intro fuel
  induction fuel with
  | zero => intro res best _; exact le_refl _
  | succ fuel ih =>
    intro res best hbest
    have hsw := twoOptSweep_spec config n best (res, best, false) ⟨hbest, le_refl _⟩
    simp only [twoOptLoop]
    split_ifs with himp
    · calc total_compatibility res config = best := hbest.symm
        _ ≤ (twoOptSweep config n (res, best, false)).2.1 := hsw.2
        _ = total_compatibility (twoOptSweep config n (res, best, false)).1 config := hsw.1
        _ ≤ _ := ih _ _ hsw.1
    · calc total_compatibility res config = best := hbest.symm
        _ ≤ (twoOptSweep config n (res, best, false)).2.1 := hsw.2
        _ = total_compatibility (twoOptSweep config n (res, best, false)).1 config := hsw.1

/-- C3: for every input sequence, iteration bound and weight configuration,
2-opt segment reversal never decreases the sum of consecutive compatibility
scores: `total_compatibility (two_opt_improve seq) ≥ total_compatibility
seq`. -/
theorem two_opt_monotone (ordered : List Track) (max_iterations : Nat)
    (config : Option SuggestionConfig) :
    total_compatibility ordered config
      ≤ total_compatibility (two_opt_improve ordered max_iterations config) config := by
  unfold two_opt_improve
  split_ifs with h
  · exact le_refl _
  · exact twoOptLoop_ge config ordered.length max_iterations ordered _ rfl

/-! ## C9: unsatisfiable constraints degrade gracefully -/

theorem argminFold_spec (f : Track → ℚ) :
    ∀ (rest : List Track) (best : Track),
      (rest.foldl (fun b c => if f c < f b then c else b) best = best
        ∨ rest.foldl (fun b c => if f c < f b then c else b) best ∈ rest)
      ∧ f (rest.foldl (fun b c => if f c < f b then c else b) best) ≤ f best
      ∧ ∀ c ∈ rest, f (rest.foldl (fun b c => if f c < f b then c else b) best) ≤ f c := by
  intro rest
  induction rest with
  | nil => intro best; exact ⟨Or.inl rfl, le_refl _, fun c hc => absurd hc (by simp)⟩
  | cons c rest ih =>
    intro best
    simp only [List.foldl_cons]
    by_cases h : f c < f best
    · rw [if_pos h]
      rcases ih c with ⟨hmem, hle, hall⟩
      refine ⟨?_, le_trans hle (le_of_lt h), ?_⟩
      · rcases hmem with h1 | h1
        · exact Or.inr (by simp [h1])
        · exact Or.inr (by simp [h1])
      · intro d hd
        rcases List.mem_cons.mp hd with rfl | hd2
        · exact hle
        · exact hall d hd2
    · rw [if_neg h]
      rcases ih best with ⟨hmem, hle, hall⟩
      refine ⟨?_, hle, ?_⟩
      · rcases hmem with h1 | h1
        · exact Or.inl h1
        · exact Or.inr (by simp [h1])
      · intro d hd
        rcases List.mem_cons.mp hd with rfl | hd2
        · exact le_trans hle (not_lt.mp h)
        · exact hall d hd2

theorem argminBy_spec (f : Track → ℚ) (l : List Track) (hne : l ≠ []) :
    ∃ t, argminBy f l = some t ∧ t ∈ l ∧ ∀ c ∈ l, f t ≤ f c := by
  match l with
  | [] => exact absurd rfl hne
  | x :: rest =>
    rcases argminFold_spec f rest x with ⟨hmem, hle, hall⟩
    refine ⟨_, rfl, ?_, ?_⟩
    · rcases hmem with h1 | h1
      · rw [h1]; exact List.mem_cons_self x rest
      · exact List.mem_cons_of_mem x h1
    · intro c hc
      rcases List.mem_cons.mp hc with rfl | hc2
      · exact hle
      · exact hall c hc2

theorem selectNext_allFail_fold (current : Track) (target_energy : ℚ)
    (bpm_tolerance : ℚ) (cfg : Option SuggestionConfig) :
    ∀ (l : List Track) (acc : Option Track × ℚ),
      (∀ c ∈ l, guardrailPass current c bpm_tolerance = false) →
      l.foldl
        (fun acc candidate =>
          if ¬ guardrailPass current candidate bpm_tolerance then acc
          else
            let score := candidateScore current candidate target_energy cfg
            if acc.2 < score then (some candidate, score) else acc)
        acc = acc := by
  intro l
  induction l with
  | nil => intro acc _; rfl
  | cons c rest ih =>
    intro acc hfail
    have hc : guardrailPass current c bpm_tolerance = false :=
      hfail c (List.mem_cons_self c rest)
    simp only [List.foldl_cons, hc]
    simp only [Bool.false_eq_true, not_false_eq_true, if_true]
    exact ih acc (fun d hd => hfail d (List.mem_cons_of_mem c hd))

/-- C9: unsatisfiable constraints never raise — `suggest` returns `[]` when
the filters eliminate every candidate, and the per-step selection of
`SetGenerator.generate` (`selectNext`), when no remaining candidate passes
the BPM guardrail, relaxes the guardrail and picks the remaining candidate
whose energy is closest to the interpolated target energy. -/
theorem unsat_constraints_graceful :
    (∀ (all_tracks : List Track) (current_track : Track)
        (sequence : List Track) (config : SuggestionConfig),
      apply_filters
          (all_tracks.filter
            (fun t => ¬ t.id ∈ current_track.id :: sequence.map Track.id))
          current_track config = [] →
      suggest all_tracks current_track sequence config = [])
    ∧ (∀ (current : Track) (target_energy : ℚ) (candidates : List Track)
        (bpm_tolerance : ℚ) (cfg : Option SuggestionConfig),
      candidates ≠ [] →
      (∀ c ∈ candidates, guardrailPass current c bpm_tolerance = false) →
      ∃ t, selectNext current target_energy candidates bpm_tolerance cfg = some t
        ∧ t ∈ candidates
        ∧ ∀ c ∈ candidates,
            absQ (t.spotify_style.energy - target_energy)
              ≤ absQ (c.spotify_style.energy - target_energy)) := by
  constructor
  · intro all_tracks current_track sequence config hempty
    simp only [suggest]
    rw [hempty]
    simp
  · intro current target_energy candidates bpm_tolerance cfg hne hfail
    unfold selectNext
    rw [selectNext_allFail_fold current target_energy bpm_tolerance cfg
      candidates ((none : Option Track), (-1 : ℚ)) hfail]
    exact argminBy_spec _ candidates hne

/-- Witness for C9: a one-track pool equal to the current track empties the
candidate pool, and a 200 BPM candidate against a 128 BPM current track
fails a 0.12 guardrail, triggering the closest-energy fallback. -/
theorem unsat_constraints_graceful_witness :
    (apply_filters
        ([c9Current].filter
          (fun t => ¬ t.id ∈ c9Current.id :: ([] : List Track).map Track.id))
        c9Current defaultSuggestionConfig = []
      ∧ suggest [c9Current] c9Current [] defaultSuggestionConfig = [])
    ∧ (([c9Cand] : List Track) ≠ []
      ∧ (∀ c ∈ [c9Cand], guardrailPass c9Current c 0.12 = false)
      ∧ ∃ t, selectNext c9Current 0.5 [c9Cand] 0.12 none = some t
          ∧ t ∈ [c9Cand]
          ∧ ∀ c ∈ [c9Cand],
              absQ (t.spotify_style.energy - 0.5)
                ≤ absQ (c.spotify_style.energy - 0.5)) := by
  have hA : apply_filters
      ([c9Current].filter
        (fun t => ¬ t.id ∈ c9Current.id :: ([] : List Track).map Track.id))
      c9Current defaultSuggestionConfig = [] := by
    simp [apply_filters, defaultSuggestionConfig, c9Current, mkTrack]
  have hB : ∀ c ∈ [c9Cand], guardrailPass c9Current c 0.12 = false := by
    intro c hc
    rcases List.mem_singleton.mp hc with rfl
    simp only [guardrailPass, c9Current, c9Cand, mkTrack]
    norm_num [maxQ, minQ, absQ]
  exact ⟨⟨hA, unsat_constraints_graceful.1 [c9Current] c9Current [] defaultSuggestionConfig hA⟩,
    ⟨by simp, hB,
      unsat_constraints_graceful.2 c9Current 0.5 [c9Cand] 0.12 none (by simp) hB⟩⟩

/-! ## C6: diversity bonus in `suggest` -/

theorem mem_insertByFinalDesc (a r : SuggestionResult) :
    ∀ l : List SuggestionResult, a ∈ insertByFinalDesc r l ↔ a = r ∨ a ∈ l := by
  intro l
  induction l with
  | nil => simp [insertByFinalDesc]
  | cons s rest ih =>
    by_cases h : s.final_score ≤ r.final_score
    · simp [insertByFinalDesc, h]
    · simp only [insertByFinalDesc, if_neg h, List.mem_cons, ih]
      tauto

theorem mem_sortByFinalDesc (a : SuggestionResult) :
    ∀ l : List SuggestionResult, a ∈ sortByFinalDesc l ↔ a ∈ l := by
  intro l
  induction l with
  | nil => simp [sortByFinalDesc]
  | cons s rest ih =>
    simp only [sortByFinalDesc, List.foldr_cons] at ih ⊢
    rw [mem_insertByFinalDesc, ih, List.mem_cons]

theorem diversity_bonus_score_eq (candidate : Track) (seq : List Track)
    (bonus : ℚ) :
    diversity_bonus_score candidate seq bonus =
      if 0 < bonus ∧ seq ≠ []
          ∧ ∃ cid, candidate.cluster_id = some cid ∧ ¬ cid ∈ recent3Clusters seq
      then bonus else 0 := by
  unfold diversity_bonus_score
  rcases hcl : candidate.cluster_id with _ | c
  · simp [hcl]
  · simp only [hcl]
    by_cases hb : bonus ≤ 0
    · simp [hb, not_lt.mpr hb]
    · have hb2 := not_le.mp hb
      by_cases hseq : seq = []
      · simp [hseq]
      · by_cases hmem : c ∈ recent3Clusters seq
        · simp [hb, hseq, hmem, hb2]
        · simp [hb, hseq, hmem, hb2]

/-- C6 (amended): every result returned by `suggest` comes from a candidate
that survived filtering, its `final_score` is
`base × strategy_modifier × context_modifier + diversity_bonus` (the bonus
is a flat addition), and its diversity bonus equals
`config.diversity_bonus` exactly when the bonus is positive, the sequence
is non-empty, and the candidate's `cluster_id` is non-null and not among
the last 3 sequence tracks' cluster ids — and 0 otherwise.  (The claim as
frozen omits the positive-bonus and non-empty-sequence guards; see the
counterexample.) -/
theorem suggestion_diversity_bonus (all_tracks : List Track)
    (current_track : Track) (sequence : List Track)
    (config : SuggestionConfig) (r : SuggestionResult)
    (hr : r ∈ suggest all_tracks current_track sequence config) :
    ∃ t, t ∈ apply_filters
        (all_tracks.filter
          (fun x => ¬ x.id ∈ current_track.id :: sequence.map Track.id))
        current_track config
      ∧ r = scoreCandidate current_track sequence config t
      ∧ r.track_id = t.id
      ∧ r.final_score = r.base_compatibility * r.strategy_modifier
          * r.context_modifier + r.diversity_bonus
      ∧ r.diversity_bonus =
          (if 0 < config.diversity_bonus ∧ sequence ≠ []
              ∧ ∃ cid, t.cluster_id = some cid
                  ∧ ¬ cid ∈ recent3Clusters sequence
            then config.diversity_bonus else 0) := by
  simp only [suggest] at hr
  split_ifs at hr with hempty
  · cases hr
  · have hr2 := List.mem_of_mem_take hr
    rw [mem_sortByFinalDesc] at hr2
    rcases List.mem_map.mp hr2 with ⟨t, ht, rfl⟩
    refine ⟨t, ht, rfl, rfl, ?_, ?_⟩
    · simp [scoreCandidate]
    · simp only [scoreCandidate]
      exact diversity_bonus_score_eq t sequence config.diversity_bonus

/-- Counterexample for C6 as frozen: in a suggest call with an empty
sequence, the surviving candidate `c6Cand` has the non-null cluster id 0,
which is vacuously not among the last 3 sequence tracks' cluster ids, and
`config.diversity_bonus = 0.1`, yet the diversity bonus added is 0, not
0.1. -/
theorem suggestion_diversity_bonus_counterexample :
    c6Cand.cluster_id = some 0
    ∧ recent3Clusters ([] : List Track) = []
    ∧ defaultSuggestionConfig.diversity_bonus = 0.1
    ∧ (suggest [c6Cand] c6Current [] defaultSuggestionConfig).map
        (fun r => (r.track_id, r.diversity_bonus)) = [(2, 0)]
    ∧ (0 : ℚ) ≠ defaultSuggestionConfig.diversity_bonus := by
  refine ⟨rfl, rfl, rfl, ?_, by norm_num [defaultSuggestionConfig]⟩
  simp [suggest, apply_filters, defaultSuggestionConfig, c6Current, c6Cand,
    mkTrack, scoreCandidate, sortByFinalDesc, insertByFinalDesc,
    diversity_bonus_score, recent3Clusters, lastN]

/-- Witness for C6 (amended) at a scenario where the bonus is granted. -/
theorem suggestion_diversity_bonus_witness :
    (scoreCandidate c6Current [c6Seq] defaultSuggestionConfig c6Cand
        ∈ suggest [c6Cand] c6Current [c6Seq] defaultSuggestionConfig)
    ∧ ∃ t, t ∈ apply_filters
          ([c6Cand].filter
            (fun x => ¬ x.id ∈ c6Current.id :: [c6Seq].map Track.id))
          c6Current defaultSuggestionConfig
        ∧ scoreCandidate c6Current [c6Seq] defaultSuggestionConfig c6Cand
            = scoreCandidate c6Current [c6Seq] defaultSuggestionConfig t
        ∧ (scoreCandidate c6Current [c6Seq] defaultSuggestionConfig c6Cand).track_id = t.id
        ∧ (scoreCandidate c6Current [c6Seq] defaultSuggestionConfig c6Cand).final_score
            = (scoreCandidate c6Current [c6Seq] defaultSuggestionConfig c6Cand).base_compatibility
              * (scoreCandidate c6Current [c6Seq] defaultSuggestionConfig c6Cand).strategy_modifier
              * (scoreCandidate c6Current [c6Seq] defaultSuggestionConfig c6Cand).context_modifier
              + (scoreCandidate c6Current [c6Seq] defaultSuggestionConfig c6Cand).diversity_bonus
        ∧ (scoreCandidate c6Current [c6Seq] defaultSuggestionConfig c6Cand).diversity_bonus =
            (if 0 < defaultSuggestionConfig.diversity_bonus ∧ ([c6Seq] : List Track) ≠ []
                ∧ ∃ cid, t.cluster_id = some cid
                    ∧ ¬ cid ∈ recent3Clusters [c6Seq]
              then defaultSuggestionConfig.diversity_bonus else 0) := by
  have hmem : scoreCandidate c6Current [c6Seq] defaultSuggestionConfig c6Cand
      ∈ suggest [c6Cand] c6Current [c6Seq] defaultSuggestionConfig := by
    have : suggest [c6Cand] c6Current [c6Seq] defaultSuggestionConfig
        = [scoreCandidate c6Current [c6Seq] defaultSuggestionConfig c6Cand] := by
      simp [suggest, apply_filters, defaultSuggestionConfig, c6Current, c6Cand,
        c6Seq, mkTrack, sortByFinalDesc, insertByFinalDesc]
    rw [this]
    exact List.mem_singleton.mpr rfl
  exact ⟨hmem,
    suggestion_diversity_bonus [c6Cand] c6Current [c6Seq]
      defaultSuggestionConfig _ hmem⟩

/-! ## C8: clustering noise invariant -/

theorem mem_insertAscInt (a x : Int) :
    ∀ l : List Int, a ∈ insertAscInt x l ↔ a = x ∨ a ∈ l := by
  intro l
  induction l with
  | nil => simp [insertAscInt]
  | cons y rest ih =>
    by_cases h : x ≤ y
    · simp [insertAscInt, h]
    · simp only [insertAscInt, if_neg h, List.mem_cons, ih]
      tauto

theorem mem_sortIntsAsc (a : Int) :
    ∀ l : List Int, a ∈ sortIntsAsc l ↔ a ∈ l := by
  intro l
  induction l with
  | nil => simp [sortIntsAsc]
  | cons x rest ih =>
    simp only [sortIntsAsc, List.foldr_cons] at ih ⊢
    rw [mem_insertAscInt, ih, List.mem_cons]

theorem mem_firstDedupAux [DecidableEq α] (a : α) :
    ∀ (l : List α) (seen : List α), a ∈ firstDedupAux seen l → a ∈ l := by
  intro l
  induction l with
  | nil => intro seen h; exact absurd h (by simp [firstDedupAux])
  | cons x rest ih =>
    intro seen h
    by_cases hx : x ∈ seen
    · simp only [firstDedupAux, if_pos hx] at h
      exact List.mem_cons_of_mem x (ih seen h)
    · simp only [firstDedupAux, if_neg hx, List.mem_cons] at h
      rcases h with rfl | h2
      · exact List.mem_cons_self a rest
      · exact List.mem_cons_of_mem x (ih (x :: seen) h2)

theorem updated_ids (tracks : List Track) (labels : List Int)
    (hlen : labels.length = tracks.length) :
    ((tracks.zip labels).map (fun p =>
      ({ p.1 with cluster_id := if 0 ≤ p.2 then some p.2 else none } : Track))).map Track.id
      = tracks.map Track.id := by
  have h1 : ((tracks.zip labels).map (fun p =>
      ({ p.1 with cluster_id := if 0 ≤ p.2 then some p.2 else none } : Track))).map Track.id
      = ((tracks.zip labels).map Prod.fst).map Track.id := by
    simp [List.map_map, Function.comp]
  rw [h1, List.map_fst_zip tracks labels (le_of_eq hlen.symm)]

/-- C8: after `cluster_tracks`, every track with `cluster_id = none` (DBSCAN
noise) is absent from the `track_ids` of every returned cluster, and
conversely every id listed in a returned cluster's `track_ids` belongs to a
track whose `cluster_id` is that cluster's non-negative id. -/
theorem clustering_noise_invariant (tracks : List Track) (labels : List Int)
    (min_samples : Nat) (hlen : labels.length = tracks.length)
    (hnd : (tracks.map Track.id).Nodup) :
    (∀ t ∈ (cluster_tracks tracks labels min_samples).1, t.cluster_id = none →
      ∀ c ∈ (cluster_tracks tracks labels min_samples).2, ¬ t.id ∈ c.track_ids)
    ∧ (∀ c ∈ (cluster_tracks tracks labels min_samples).2,
        0 ≤ c.id ∧ ∀ tid ∈ c.track_ids,
          ∃ t ∈ (cluster_tracks tracks labels min_samples).1,
            t.id = tid ∧ t.cluster_id = some c.id) := by
  by_cases hguard : tracks.length < min_samples
  · simp [cluster_tracks, hguard]
  · simp only [cluster_tracks, if_neg hguard]
    have hids : ((tracks.zip labels).map (fun p =>
        ({ p.1 with cluster_id := if 0 ≤ p.2 then some p.2 else none } : Track))).map Track.id
        = tracks.map Track.id := updated_ids tracks labels hlen
    set updated := (tracks.zip labels).map (fun p =>
      ({ p.1 with cluster_id := if 0 ≤ p.2 then some p.2 else none } : Track)) with hupd
    have hndu : (updated.map Track.id).Nodup := by rw [hids]; exact hnd
    constructor
    · intro t ht htnone c hc hmem
      simp only [List.mem_map] at hc
      rcases hc with ⟨cid, hcid, rfl⟩
      simp only [List.mem_map] at hmem
      rcases hmem with ⟨u, hu, huid⟩
      rcases List.mem_filter.mp hu with ⟨huu, hucl⟩
      have hueq : u = t := List.inj_on_of_nodup_map hndu huu ht huid
      rw [hueq] at hucl
      rw [htnone] at hucl
      simp at hucl
    · intro c hc
      simp only [List.mem_map] at hc
      rcases hc with ⟨cid, hcid, rfl⟩
      constructor
      · rw [mem_sortIntsAsc] at hcid
        have := List.mem_filter.mp (mem_firstDedupAux cid _ _ hcid)
        simpa using this.2
      · intro tid htid
        simp only [List.mem_map] at htid
        rcases htid with ⟨u, hu, huid⟩
        rcases List.mem_filter.mp hu with ⟨huu, hucl⟩
        exact ⟨u, huu, huid, by simpa using hucl⟩

/-- Witness for C8 on three concrete tracks with DBSCAN labels [0, 0, -1]. -/
theorem clustering_noise_invariant_witness :
    (([0, 0, -1] : List Int).length = c8Tracks.length
      ∧ (c8Tracks.map Track.id).Nodup)
    ∧ ((∀ t ∈ (cluster_tracks c8Tracks [0, 0, -1] 3).1, t.cluster_id = none →
        ∀ c ∈ (cluster_tracks c8Tracks [0, 0, -1] 3).2, ¬ t.id ∈ c.track_ids)
      ∧ (∀ c ∈ (cluster_tracks c8Tracks [0, 0, -1] 3).2,
          0 ≤ c.id ∧ ∀ tid ∈ c.track_ids,
            ∃ t ∈ (cluster_tracks c8Tracks [0, 0, -1] 3).1,
              t.id = tid ∧ t.cluster_id = some c.id)) :=
  ⟨⟨by simp [c8Tracks], by simp [c8Tracks, mkTrack]⟩,
    clustering_noise_invariant c8Tracks [0, 0, -1] 3
      (by simp [c8Tracks]) (by simp [c8Tracks, mkTrack])⟩

/-! ## C2: incremental edge-computation consistency -/

theorem edgesHas_append (es1 es2 : List EdgeT) (s t : Nat) :
    edgesHas (es1 ++ es2) s t = (edgesHas es1 s t || edgesHas es2 s t) := by
  simp [edgesHas, List.any_append]

theorem minQ_comm (a b : ℚ) : minQ a b = minQ b a := by
  rw [minQ_eq_min, minQ_eq_min, min_comm]

theorem maxQ_comm (a b : ℚ) : maxQ a b = maxQ b a := by
  rw [maxQ_eq_max, maxQ_eq_max, max_comm]

theorem bpm_compatible_comm (a b : ℚ) :
    bpm_compatible a b = bpm_compatible b a := by
  unfold bpm_compatible
  rw [maxQ_comm a b, minQ_comm a b]
  by_cases h : a ≤ 0 ∨ b ≤ 0
  · rw [if_pos h, if_pos (Or.symm h)]
  · rw [if_neg h, if_neg (fun hc => h (Or.symm hc))]

theorem addF_some_iff {threshold : ℚ} {config : Option SuggestionConfig}
    {es : List EdgeT} {p : Track × Track} {e : EdgeT} :
    addF threshold config es p = some e ↔
      (¬ p.1.id = p.2.id ∧ edgesHas es p.1.id p.2.id = false
        ∧ bpm_compatible p.1.dj_metrics.bpm p.2.dj_metrics.bpm = true
        ∧ threshold ≤ (compute_compatibility p.1 p.2 config).1)
      ∧ e = mkEdge p.1 p.2 config := by
  unfold addF
  split_ifs with hc
  · simp [hc, eq_comm]
  · simp [hc]

theorem addF_ids {threshold : ℚ} {config : Option SuggestionConfig}
    {es : List EdgeT} {p : Track × Track} {e : EdgeT}
    (h : addF threshold config es p = some e) :
    e.source_id = p.1.id ∧ e.target_id = p.2.id := by
  rcases addF_some_iff.mp h with ⟨-, rfl⟩
  exact ⟨rfl, rfl⟩

theorem addF_congr (threshold : ℚ) (config : Option SuggestionConfig)
    (es1 es2 : List EdgeT) (q : Track × Track)
    (h : edgesHas es1 q.1.id q.2.id = edgesHas es2 q.1.id q.2.id) :
    addF threshold config es1 q = addF threshold config es2 q := by
  unfold addF
  rw [h]

theorem tryAdd_eq (threshold : ℚ) (config : Option SuggestionConfig)
    (g : TrackGraph) (p : Track × Track) :
    tryAdd threshold config g p =
      { g with edges := g.edges ++ (addF threshold config g.edges p).toList } := by
  by_cases h1 : p.1.id = p.2.id
  · simp [tryAdd, addF, h1]
  · by_cases h2 : edgesHas g.edges p.1.id p.2.id = true
    · simp [tryAdd, addF, h1, h2]
    · by_cases h3 : bpm_compatible p.1.dj_metrics.bpm p.2.dj_metrics.bpm = true
      · by_cases h4 : threshold ≤ (compute_compatibility p.1 p.2 config).1
        · simp [tryAdd, addF, h1, h2, h3, h4, TrackGraph.add_edge]
        · simp [tryAdd, addF, h1, h2, h3, h4]
      · simp [tryAdd, addF, h1, h2, h3]

theorem processPairs_spec (threshold : ℚ) (config : Option SuggestionConfig) :
    ∀ (L : List (Track × Track)) (g : TrackGraph),
      (L.map (fun p => (p.1.id, p.2.id))).Nodup →
      (processPairs threshold config g L).nodes = g.nodes
      ∧ (processPairs threshold config g L).edges
          = g.edges ++ L.filterMap (addF threshold config g.edges) := by
  intro L
  induction L with
  | nil => intro g _; exact ⟨rfl, by simp [processPairs]⟩
  | cons p rest ih =>
    intro g hnd
    rw [List.map_cons, List.nodup_cons] at hnd
    have hstep := tryAdd_eq threshold config g p
    simp only [processPairs, List.foldl_cons]
    rw [hstep]
    have ih2 := ih { g with edges := g.edges ++ (addF threshold config g.edges p).toList }
      hnd.2
    simp only [processPairs] at ih2
    rcases ih2 with ⟨hn, he⟩
    refine ⟨by rw [hn], ?_⟩
    rw [he]
    have hcongr :
        rest.filterMap
          (addF threshold config (g.edges ++ (addF threshold config g.edges p).toList))
        = rest.filterMap (addF threshold config g.edges) := by
      apply List.filterMap_congr
      intro q hq
      apply addF_congr
      cases haddp : addF threshold config g.edges p with
      | none => simp [haddp]
      | some e =>
        rcases addF_ids haddp with ⟨hs, ht⟩
        have hneq : ¬ (p.1.id = q.1.id ∧ p.2.id = q.2.id) := by
          rintro ⟨ha, hb⟩
          exact hnd.1 (by
            rw [List.mem_map]
            exact ⟨q, hq, by rw [ha, hb]⟩)
        have h1 : edgesHas [e] q.1.id q.2.id = false := by
          simp only [edgesHas, List.any_cons, List.any_nil, Bool.or_false,
            hs, ht]
          rw [decide_eq_false_iff_not]
          exact hneq
        simp only [Option.toList_some, edgesHas_append, h1, Bool.or_false]
    rw [hcongr, List.filterMap_cons]
    cases haddp : addF threshold config g.edges p with
    | none => simp [haddp]
    | some e => simp [haddp]

theorem filterMap_map_sublist {α β γ : Type _} (f : α → Option β) (g : β → γ)
    (h : α → γ) (hfg : ∀ a b, f a = some b → g b = h a) :
    ∀ L : List α, ((L.filterMap f).map g).Sublist (L.map h) := by
  intro L
  induction L with
  | nil => simp
  | cons a rest ih =>
    rw [List.filterMap_cons, List.map_cons]
    cases hfa : f a with
    | none => exact ih.cons (h a)
    | some b =>
      rw [List.map_cons, hfg a b hfa]
      exact ih.cons₂ (h a)

theorem enum_ids_ne {ns : List Track} (hnd : (ns.map Track.id).Nodup)
    {i j : Nat} {a b : Track}
    (ha : (i, a) ∈ ns.enum) (hb : (j, b) ∈ ns.enum) (hij : ¬ i = j) :
    ¬ a.id = b.id := by
  intro hid
  have ha2 := List.mem_enum_iff_getElem?.mp ha
  have hb2 := List.mem_enum_iff_getElem?.mp hb
  have hab : a = b :=
    List.inj_on_of_nodup_map hnd (List.getElem?_mem ha2) (List.getElem?_mem hb2) hid
  subst hab
  exact hij (List.getElem?_inj (List.getElem?_eq_some.mp ha2).1
    (List.Nodup.of_map Track.id hnd) (ha2.trans hb2.symm))

theorem add_nodes_fresh :
    ∀ (ts : List Track) (g : TrackGraph),
      ((g.nodes ++ ts).map Track.id).Nodup →
      (g.add_nodes ts).nodes = g.nodes ++ ts ∧ (g.add_nodes ts).edges = g.edges := by
  intro ts
  induction ts with
  | nil => intro g _; simp [TrackGraph.add_nodes]
  | cons t rest ih =>
    intro g hnd
    have hne : ¬ g.nodes.any (fun u => decide (u.id = t.id)) = true := by
      rw [List.map_append] at hnd
      have hdisj := List.disjoint_of_nodup_append hnd
      simp only [List.any_eq_true, decide_eq_true_eq]
      rintro ⟨u, hu, hui⟩
      exact hdisj (hui ▸ List.mem_map_of_mem Track.id hu)
        (by simp)
    have haddn : g.add_node t = { g with nodes := g.nodes ++ [t] } := by
      unfold TrackGraph.add_node
      rw [if_neg hne]
    simp only [TrackGraph.add_nodes, List.foldl_cons]
    rw [haddn]
    have hnd2 : (({ g with nodes := g.nodes ++ [t]} : TrackGraph).nodes ++ rest).map Track.id
        |>.Nodup := by
      show ((g.nodes ++ [t] ++ rest).map Track.id).Nodup
      rw [← List.append_cons]
      exact hnd
    have ih2 := ih { g with nodes := g.nodes ++ [t] } hnd2
    simp only [TrackGraph.add_nodes] at ih2
    rcases ih2 with ⟨h1, h2⟩
    refine ⟨?_, h2⟩
    rw [h1]
    show g.nodes ++ [t] ++ rest = g.nodes ++ t :: rest
    rw [← List.append_cons]

theorem ceFold_eq (threshold : ℚ) (config : Option SuggestionConfig) :
    ∀ (PL : List ((Nat × Track) × (Nat × Track))) (g : TrackGraph),
      (∀ pq ∈ PL, pq.1.1 = pq.2.1 ∨ ¬ pq.1.2.id = pq.2.2.id) →
      PL.foldl
        (fun acc p =>
          if p.1.1 = p.2.1 then acc
          else if edgesHas acc.edges p.1.2.id p.2.2.id then acc
          else if ¬ (bpm_compatible p.1.2.dj_metrics.bpm p.2.2.dj_metrics.bpm = true) then acc
          else if threshold ≤ (compute_compatibility p.1.2 p.2.2 config).1 then
            acc.add_edge (mkEdge p.1.2 p.2.2 config)
          else acc)
        g
      = processPairs threshold config g
          (PL.filterMap
            (fun pq => if pq.1.1 = pq.2.1 then none else some (pq.1.2, pq.2.2))) := by
  intro PL
  induction PL with
  | nil => intro g _; rfl
  | cons pq rest ih =>
    intro g hyp
    rw [List.foldl_cons, List.filterMap_cons]
    by_cases hij : pq.1.1 = pq.2.1
    · simp only [if_pos hij]
      exact ih g (fun q hq => hyp q (List.mem_cons_of_mem pq hq))
    · have hid : ¬ pq.1.2.id = pq.2.2.id :=
        (hyp pq (List.mem_cons_self pq rest)).resolve_left hij
      simp only [if_neg hij]
      have hstep :
          (if edgesHas g.edges pq.1.2.id pq.2.2.id then g
           else if ¬ (bpm_compatible pq.1.2.dj_metrics.bpm pq.2.2.dj_metrics.bpm = true) then g
           else if threshold ≤ (compute_compatibility pq.1.2 pq.2.2 config).1 then
             g.add_edge (mkEdge pq.1.2 pq.2.2 config)
           else g)
          = tryAdd threshold config g (pq.1.2, pq.2.2) := by
        unfold tryAdd
        rw [if_neg hid]
      rw [hstep]
      have ih2 := ih (tryAdd threshold config g (pq.1.2, pq.2.2))
        (fun q hq => hyp q (List.mem_cons_of_mem pq hq))
      rw [ih2]
      rfl

theorem compute_edges_eq (g : TrackGraph) (threshold : ℚ)
    (config : Option SuggestionConfig)
    (hnd : (g.nodes.map Track.id).Nodup) :
    g.compute_edges threshold config
      = processPairs threshold config g (cePairs g.nodes) := by
  unfold TrackGraph.compute_edges cePairs
  apply ceFold_eq
  rintro ⟨⟨i, a⟩, ⟨j, b⟩⟩ hpq
  rw [List.pair_mem_product] at hpq
  by_cases hij : i = j
  · exact Or.inl hij
  · exact Or.inr (enum_ids_ne hnd hpq.1 hpq.2 hij)

theorem tryAdd_bpm_false (threshold : ℚ) (config : Option SuggestionConfig)
    (g : TrackGraph) (p : Track × Track)
    (h : ¬ bpm_compatible p.1.dj_metrics.bpm p.2.dj_metrics.bpm = true) :
    tryAdd threshold config g p = g := by
  unfold tryAdd
  split_ifs with h1 h2 h3 h4 <;> first | rfl | exact absurd h3 (fun hc => hc h)

theorem tryAdd_main (threshold : ℚ) (config : Option SuggestionConfig)
    (g : TrackGraph) (p : Track × Track)
    (hid : ¬ p.1.id = p.2.id)
    (hbpm : bpm_compatible p.1.dj_metrics.bpm p.2.dj_metrics.bpm = true) :
    tryAdd threshold config g p =
      (if edgesHas g.edges p.1.id p.2.id then g
       else if threshold ≤ (compute_compatibility p.1 p.2 config).1 then
         g.add_edge (mkEdge p.1 p.2 config)
       else g) := by
  unfold tryAdd
  rw [if_neg hid]
  by_cases h2 : edgesHas g.edges p.1.id p.2.id
  · rw [if_pos h2, if_pos h2]
  · rw [if_neg h2, if_neg h2, if_neg (by simp [hbpm])]

theorem cefntFold_eq (threshold : ℚ) (config : Option SuggestionConfig)
    (new_ids : List Nat) :
    ∀ (PL : List (Track × Track)) (g : TrackGraph),
      (∀ p ∈ PL, p.1.id ∈ new_ids) →
      PL.foldl
        (fun acc p =>
          if p.1.id = p.2.id then acc
          else if ¬ (bpm_compatible p.1.dj_metrics.bpm p.2.dj_metrics.bpm = true) then acc
          else
            let acc1 :=
              if edgesHas acc.edges p.1.id p.2.id then acc
              else if threshold ≤ (compute_compatibility p.1 p.2 config).1 then
                acc.add_edge (mkEdge p.1 p.2 config)
              else acc
            if p.2.id ∈ new_ids then acc1
            else if edgesHas acc1.edges p.2.id p.1.id then acc1
            else if threshold ≤ (compute_compatibility p.2 p.1 config).1 then
              acc1.add_edge (mkEdge p.2 p.1 config)
            else acc1)
        g
      = processPairs threshold config g (cefntDirPairs new_ids PL) := by
  intro PL
  induction PL with
  | nil => intro g _; rfl
  | cons p rest ih =>
    intro g hyp
    have hyp1 : p.1.id ∈ new_ids := hyp p (List.mem_cons_self p rest)
    have hyprest : ∀ q ∈ rest, q.1.id ∈ new_ids :=
      fun q hq => hyp q (List.mem_cons_of_mem p hq)
    rw [List.foldl_cons]
    by_cases hid : p.1.id = p.2.id
    · have hin : p.2.id ∈ new_ids := hid ▸ hyp1
      simp only [cefntDirPairs, if_pos hin, if_pos hid]
      have : processPairs threshold config g ((p.1, p.2) :: cefntDirPairs new_ids rest)
          = processPairs threshold config (tryAdd threshold config g (p.1, p.2))
            (cefntDirPairs new_ids rest) := rfl
      rw [this]
      have htr : tryAdd threshold config g (p.1, p.2) = g := by
        unfold tryAdd
        rw [if_pos hid]
      rw [htr]
      exact ih g hyprest
    · by_cases hbpm : bpm_compatible p.1.dj_metrics.bpm p.2.dj_metrics.bpm = true
      · rw [if_neg hid, if_neg (by simp [hbpm])]
        by_cases hin : p.2.id ∈ new_ids
        · simp only [cefntDirPairs, if_pos hin, if_pos hin]
          have : processPairs threshold config g ((p.1, p.2) :: cefntDirPairs new_ids rest)
              = processPairs threshold config (tryAdd threshold config g (p.1, p.2))
                (cefntDirPairs new_ids rest) := rfl
          rw [this, ← tryAdd_main threshold config g (p.1, p.2) hid hbpm]
          exact ih _ hyprest
        · simp only [cefntDirPairs, if_neg hin, if_neg hin]
          have : processPairs threshold config g
                ((p.1, p.2) :: (p.2, p.1) :: cefntDirPairs new_ids rest)
              = processPairs threshold config
                (tryAdd threshold config (tryAdd threshold config g (p.1, p.2)) (p.2, p.1))
                (cefntDirPairs new_ids rest) := rfl
          rw [this, ← tryAdd_main threshold config g (p.1, p.2) hid hbpm,
            ← tryAdd_main threshold config _ (p.2, p.1)
              (fun hc => hid hc.symm)
              (by rw [show (p.2, p.1).1 = p.2 from rfl, show (p.2, p.1).2 = p.1 from rfl,
                bpm_compatible_comm]; exact hbpm)]
          exact ih _ hyprest
      · rw [if_neg hid, if_pos (by simp [hbpm])]
        have hrev : ¬ bpm_compatible p.2.dj_metrics.bpm p.1.dj_metrics.bpm = true := by
          rw [bpm_compatible_comm]; exact hbpm
        by_cases hin : p.2.id ∈ new_ids
        · simp only [cefntDirPairs, if_pos hin]
          have : processPairs threshold config g ((p.1, p.2) :: cefntDirPairs new_ids rest)
              = processPairs threshold config (tryAdd threshold config g (p.1, p.2))
                (cefntDirPairs new_ids rest) := rfl
          rw [this, tryAdd_bpm_false threshold config g (p.1, p.2) hbpm]
          exact ih g hyprest
        · simp only [cefntDirPairs, if_neg hin]
          have : processPairs threshold config g
                ((p.1, p.2) :: (p.2, p.1) :: cefntDirPairs new_ids rest)
              = processPairs threshold config
                (tryAdd threshold config (tryAdd threshold config g (p.1, p.2)) (p.2, p.1))
                (cefntDirPairs new_ids rest) := rfl
          rw [this, tryAdd_bpm_false threshold config g (p.1, p.2) hbpm,
            tryAdd_bpm_false threshold config g (p.2, p.1) hrev]
          exact ih g hyprest

theorem cefnt_eq (g : TrackGraph) (new_tracks : List Track) (threshold : ℚ)
    (config : Option SuggestionConfig) :
    g.compute_edges_for_new_tracks new_tracks threshold config
      = processPairs threshold config g
          (cefntDirPairs (new_tracks.map Track.id) (new_tracks.product g.nodes)) := by
  unfold TrackGraph.compute_edges_for_new_tracks
  apply cefntFold_eq
  rintro ⟨nt, et⟩ hp
  rw [List.pair_mem_product] at hp
  exact List.mem_map_of_mem Track.id hp.1

theorem mem_cePairs_elim {ns : List Track} {p : Track × Track}
    (h : p ∈ cePairs ns) : p.1 ∈ ns ∧ p.2 ∈ ns := by
  unfold cePairs at h
  rcases List.mem_filterMap.mp h with ⟨pq, hpq, hf⟩
  rcases pq with ⟨⟨i, a⟩, ⟨j, b⟩⟩
  rw [List.pair_mem_product] at hpq
  by_cases hij : i = j
  · rw [if_pos hij] at hf; cases hf
  · rw [if_neg hij] at hf
    injection hf with hf
    subst hf
    exact ⟨List.getElem?_mem (List.mem_enum_iff_getElem?.mp hpq.1),
      List.getElem?_mem (List.mem_enum_iff_getElem?.mp hpq.2)⟩

theorem mem_cePairs_intro {ns : List Track} {a b : Track}
    (ha : a ∈ ns) (hb : b ∈ ns) (hid : ¬ a.id = b.id) :
    (a, b) ∈ cePairs ns := by
  rcases List.mem_iff_getElem?.mp ha with ⟨i, hi⟩
  rcases List.mem_iff_getElem?.mp hb with ⟨j, hj⟩
  have hij : ¬ i = j := by
    rintro rfl
    rw [hi] at hj
    injection hj with hj
    exact hid (by rw [hj])
  unfold cePairs
  apply List.mem_filterMap.mpr
  exact ⟨((i, a), (j, b)),
    List.pair_mem_product.mpr
      ⟨List.mem_enum_iff_getElem?.mpr hi, List.mem_enum_iff_getElem?.mpr hj⟩,
    by rw [if_neg hij]⟩

theorem map_product_pair {α β γ δ : Type _} (f : α → γ) (g : β → δ) :
    ∀ (l1 : List α) (l2 : List β),
      (l1.product l2).map (Prod.map f g) = (l1.map f).product (l2.map g) := by
  intro l1 l2
  induction l1 with
  | nil => rfl
  | cons a rest ih =>
    show ((l2.map (Prod.mk a) ++ rest.product l2).map (Prod.map f g))
        = ((l2.map g).map (Prod.mk (f a)) ++ (rest.map f).product (l2.map g))
    rw [List.map_append, ih, List.map_map, List.map_map]
    rfl

theorem cePairs_idPairs_nodup {ns : List Track}
    (hnd : (ns.map Track.id).Nodup) :
    ((cePairs ns).map (fun p => (p.1.id, p.2.id))).Nodup := by
  have hsub := filterMap_map_sublist
    (fun pq : (Nat × Track) × (Nat × Track) =>
      if pq.1.1 = pq.2.1 then none else some (pq.1.2, pq.2.2))
    (fun p : Track × Track => (p.1.id, p.2.id))
    (fun pq : (Nat × Track) × (Nat × Track) => (pq.1.2.id, pq.2.2.id))
    (by
      intro pq p hf
      dsimp only at hf
      by_cases hij : pq.1.1 = pq.2.1
      · rw [if_pos hij] at hf; cases hf
      · rw [if_neg hij] at hf
        injection hf with hf
        subst hf
        rfl)
    (ns.enum.product ns.enum)
  apply List.Nodup.sublist hsub
  show ((ns.enum.product ns.enum).map
    (Prod.map (fun ia : Nat × Track => ia.2.id) (fun ia : Nat × Track => ia.2.id))).Nodup
  rw [map_product_pair]
  have henum : ns.enum.map (fun ia : Nat × Track => ia.2.id) = ns.map Track.id := by
    rw [show (fun ia : Nat × Track => ia.2.id) = Track.id ∘ Prod.snd from rfl,
      ← List.map_map, List.enum_map_snd]
  rw [henum]
  exact List.Nodup.product hnd hnd

theorem mem_cefntDirPairs {new_ids : List Nat} :
    ∀ {PL : List (Track × Track)} {r : Track × Track},
      r ∈ cefntDirPairs new_ids PL ↔
        ∃ q ∈ PL, r = q ∨ (¬ q.2.id ∈ new_ids ∧ r = (q.2, q.1)) := by
  intro PL
  induction PL with
  | nil => intro r; simp [cefntDirPairs]
  | cons p rest ih =>
    intro r
    by_cases hin : p.2.id ∈ new_ids
    · simp only [cefntDirPairs, if_pos hin, List.mem_cons, ih]
      constructor
      · rintro (rfl | ⟨q, hq, hcase⟩)
        · exact ⟨p, Or.inl rfl, Or.inl rfl⟩
        · exact ⟨q, Or.inr hq, hcase⟩
      · rintro ⟨q, hq, hcase⟩
        rcases hq with rfl | hq2
        · rcases hcase with rfl | ⟨hnin, -⟩
          · exact Or.inl rfl
          · exact absurd hin hnin
        · exact Or.inr ⟨q, hq2, hcase⟩
    · simp only [cefntDirPairs, if_neg hin, List.mem_cons, ih]
      constructor
      · rintro (rfl | rfl | ⟨q, hq, hcase⟩)
        · exact ⟨p, Or.inl rfl, Or.inl rfl⟩
        · exact ⟨p, Or.inl rfl, Or.inr ⟨hin, rfl⟩⟩
        · exact ⟨q, Or.inr hq, hcase⟩
      · rintro ⟨q, hq, hcase⟩
        rcases hq with rfl | hq2
        · rcases hcase with rfl | ⟨-, rfl⟩
          · exact Or.inl rfl
          · exact Or.inr (Or.inl rfl)
        · exact Or.inr (Or.inr ⟨q, hq2, hcase⟩)

theorem cefntDirPairs_idPairs_nodup {new_ids : List Nat} :
    ∀ {PL : List (Track × Track)},
      (∀ p ∈ PL, p.1.id ∈ new_ids) →
      (PL.map (fun p => (p.1.id, p.2.id))).Nodup →
      ((cefntDirPairs new_ids PL).map (fun p => (p.1.id, p.2.id))).Nodup := by
  intro PL
  induction PL with
  | nil => intro _ _; simp [cefntDirPairs]
  | cons p rest ih =>
    intro h1 h2
    rw [List.map_cons, List.nodup_cons] at h2
    have hp1 : p.1.id ∈ new_ids := h1 p (List.mem_cons_self p rest)
    have hrest1 : ∀ q ∈ rest, q.1.id ∈ new_ids :=
      fun q hq => h1 q (List.mem_cons_of_mem p hq)
    have ihr := ih hrest1 h2.2
    have hmem_char : ∀ x ∈ (cefntDirPairs new_ids rest).map
        (fun p => (p.1.id, p.2.id)),
        ∃ q ∈ rest, x = (q.1.id, q.2.id)
          ∨ (¬ q.2.id ∈ new_ids ∧ x = (q.2.id, q.1.id)) := by
      intro x hx
      rcases List.mem_map.mp hx with ⟨r, hr, rfl⟩
      rcases mem_cefntDirPairs.mp hr with ⟨q, hq, hcase⟩
      rcases hcase with heq | ⟨hnin, heq⟩
      · exact ⟨q, hq, Or.inl (by rw [heq])⟩
      · exact ⟨q, hq, Or.inr ⟨hnin, by rw [heq]⟩⟩
    have hfwd_notin : ¬ (p.1.id, p.2.id) ∈ (cefntDirPairs new_ids rest).map
        (fun p => (p.1.id, p.2.id)) := by
      intro hx
      rcases hmem_char _ hx with ⟨q, hq, hcase | ⟨hnin, heq⟩⟩
      · exact h2.1 (hcase ▸ List.mem_map_of_mem _ hq)
      · have hfst : p.1.id = q.2.id := congrArg Prod.fst heq
        exact hnin (hfst ▸ hp1)
    by_cases hin : p.2.id ∈ new_ids
    · simp only [cefntDirPairs, if_pos hin, List.map_cons, List.nodup_cons]
      exact ⟨hfwd_notin, ihr⟩
    · simp only [cefntDirPairs, if_neg hin, List.map_cons, List.nodup_cons]
      refine ⟨?_, ?_, ihr⟩
      · rw [List.mem_cons]
        rintro (heq | hx)
        · have hfst : p.1.id = p.2.id := congrArg Prod.fst heq
          exact hin (hfst ▸ hp1)
        · exact hfwd_notin hx
      · intro hx
        rcases hmem_char _ hx with ⟨q, hq, hcase | ⟨-, heq⟩⟩
        · have hfst : p.2.id = q.1.id := congrArg Prod.fst hcase
          exact hin (hfst ▸ hrest1 q hq)
        · have hfst : p.2.id = q.2.id := congrArg Prod.fst heq
          have hsnd : p.1.id = q.1.id := congrArg Prod.snd heq
          refine h2.1 ?_
          rw [show ((p.1.id, p.2.id) : Nat × Nat) = (q.1.id, q.2.id) by
            rw [hfst, hsnd]]
          exact List.mem_map_of_mem _ hq

theorem edgesHas_nil (s t : Nat) : edgesHas [] s t = false := rfl

theorem edgesHas_eq_false_of_forall {es : List EdgeT} {s t : Nat}
    (h : ∀ e ∈ es, ¬ (e.source_id = s ∧ e.target_id = t)) :
    edgesHas es s t = false := by
  unfold edgesHas
  rw [List.any_eq_false]
  intro e he
  rw [decide_eq_true_eq]
  exact h e he

/-- C2: for a fixed final node set with pairwise-distinct ids, adding the
nodes and calling `compute_edges_for_new_tracks` in two successive batches
produces the same edge set as adding all nodes and making a single
`compute_edges` call: membership of full edge records coincides, and so in
particular the sets of ordered (source id, target id, compatibility score)
triples coincide; neither run ever creates a duplicate directed edge (the
(source, target) pair lists of both final edge lists are duplicate-free);
and each ordered pair is computed at most once: each of the three method
calls equals a fold of the canonical single-pair processor over a directed
candidate-pair list whose ordered id pairs are pairwise distinct. -/
theorem incremental_edge_consistency (B1 B2 : List Track) (threshold : ℚ)
    (config : Option SuggestionConfig)
    (hnd : ((B1 ++ B2).map Track.id).Nodup) :
    (∀ e, e ∈ ((((emptyGraph.add_nodes B1).compute_edges_for_new_tracks B1
            threshold config).add_nodes B2).compute_edges_for_new_tracks B2
            threshold config).edges
      ↔ e ∈ ((emptyGraph.add_nodes (B1 ++ B2)).compute_edges
            threshold config).edges)
    ∧ (∀ s t sc,
        (∃ e ∈ ((((emptyGraph.add_nodes B1).compute_edges_for_new_tracks B1
              threshold config).add_nodes B2).compute_edges_for_new_tracks B2
              threshold config).edges,
            e.source_id = s ∧ e.target_id = t ∧ e.compatibility_score = sc)
        ↔ (∃ e ∈ ((emptyGraph.add_nodes (B1 ++ B2)).compute_edges
              threshold config).edges,
            e.source_id = s ∧ e.target_id = t ∧ e.compatibility_score = sc))
    ∧ (((((emptyGraph.add_nodes B1).compute_edges_for_new_tracks B1
            threshold config).add_nodes B2).compute_edges_for_new_tracks B2
            threshold config).edges.map
          (fun e => (e.source_id, e.target_id))).Nodup
    ∧ (((emptyGraph.add_nodes (B1 ++ B2)).compute_edges
          threshold config).edges.map
          (fun e => (e.source_id, e.target_id))).Nodup
    ∧ ((emptyGraph.add_nodes (B1 ++ B2)).compute_edges threshold config
        = processPairs threshold config (emptyGraph.add_nodes (B1 ++ B2))
            (cePairs (B1 ++ B2))
      ∧ ((cePairs (B1 ++ B2)).map (fun p => (p.1.id, p.2.id))).Nodup)
    ∧ ((emptyGraph.add_nodes B1).compute_edges_for_new_tracks B1 threshold config
        = processPairs threshold config (emptyGraph.add_nodes B1)
            (cefntDirPairs (B1.map Track.id) (B1.product B1))
      ∧ ((cefntDirPairs (B1.map Track.id) (B1.product B1)).map
          (fun p => (p.1.id, p.2.id))).Nodup)
    ∧ ((((emptyGraph.add_nodes B1).compute_edges_for_new_tracks B1 threshold
            config).add_nodes B2).compute_edges_for_new_tracks B2 threshold config
        = processPairs threshold config
            (((emptyGraph.add_nodes B1).compute_edges_for_new_tracks B1 threshold
              config).add_nodes B2)
            (cefntDirPairs (B2.map Track.id) (B2.product (B1 ++ B2)))
      ∧ ((cefntDirPairs (B2.map Track.id) (B2.product (B1 ++ B2))).map
          (fun p => (p.1.id, p.2.id))).Nodup) := by
  have hndmap := hnd
  rw [List.map_append] at hndmap
  have hnd1 : (B1.map Track.id).Nodup := hndmap.of_append_left
  have hnd2 : (B2.map Track.id).Nodup := hndmap.of_append_right
  have hdisj : (B1.map Track.id).Disjoint (B2.map Track.id) :=
    List.disjoint_of_nodup_append hndmap
  have hndns : ((B1 ++ B2).map Track.id).Nodup := hnd
  -- Stage 1: nodes of the B1 graph.
  have hA1 := add_nodes_fresh B1 emptyGraph (by simpa [emptyGraph] using hnd1)
  rw [show emptyGraph.nodes ++ B1 = B1 from by simp [emptyGraph]] at hA1
  -- Stage 1: incremental edges over B1.
  have hg1 := cefnt_eq (emptyGraph.add_nodes B1) B1 threshold config
  rw [hA1.1] at hg1
  have hL1h1 : ∀ p ∈ B1.product B1, p.1.id ∈ B1.map Track.id := by
    rintro ⟨a, b⟩ hp
    rw [List.pair_mem_product] at hp
    exact List.mem_map_of_mem Track.id hp.1
  have hprodnd1 : ((B1.product B1).map
      (fun p : Track × Track => (p.1.id, p.2.id))).Nodup := by
    show ((B1.product B1).map (Prod.map Track.id Track.id)).Nodup
    rw [map_product_pair]
    exact List.Nodup.product hnd1 hnd1
  have hL1nd := cefntDirPairs_idPairs_nodup hL1h1 hprodnd1
  have hspec1 := processPairs_spec threshold config
    (cefntDirPairs (B1.map Track.id) (B1.product B1))
    (emptyGraph.add_nodes B1) hL1nd
  rw [← hg1] at hspec1
  rw [hA1.1, hA1.2] at hspec1
  rcases hspec1 with ⟨hg1nodes, hg1edges⟩
  rw [show emptyGraph.edges = [] from rfl, List.nil_append] at hg1edges
  -- Every stage-1 edge has both endpoints among B1's ids.
  have hg1ids : ∀ e ∈ ((emptyGraph.add_nodes B1).compute_edges_for_new_tracks B1
      threshold config).edges,
      e.source_id ∈ B1.map Track.id ∧ e.target_id ∈ B1.map Track.id := by
    intro e he
    rw [hg1edges] at he
    rcases List.mem_filterMap.mp he with ⟨p, hp, hsome⟩
    rcases addF_ids hsome with ⟨hs, ht⟩
    rcases mem_cefntDirPairs.mp hp with ⟨w, hw, hcase⟩
    rw [List.pair_mem_product] at hw
    rcases hcase with heq | ⟨-, heq⟩
    · rw [hs, ht, heq]
      exact ⟨List.mem_map_of_mem Track.id hw.1, List.mem_map_of_mem Track.id hw.2⟩
    · rw [hs, ht, heq]
      exact ⟨List.mem_map_of_mem Track.id hw.2, List.mem_map_of_mem Track.id hw.1⟩
  -- Stage 2: add B2's nodes.
  have hA2 := add_nodes_fresh B2
    ((emptyGraph.add_nodes B1).compute_edges_for_new_tracks B1 threshold config)
    (by rw [hg1nodes]; exact hnd)
  rw [hg1nodes] at hA2
  -- Stage 2: incremental edges over B2.
  have hg2 := cefnt_eq
    (((emptyGraph.add_nodes B1).compute_edges_for_new_tracks B1 threshold
      config).add_nodes B2) B2 threshold config
  rw [hA2.1] at hg2
  have hL2h1 : ∀ p ∈ B2.product (B1 ++ B2), p.1.id ∈ B2.map Track.id := by
    rintro ⟨a, b⟩ hp
    rw [List.pair_mem_product] at hp
    exact List.mem_map_of_mem Track.id hp.1
  have hprodnd2 : ((B2.product (B1 ++ B2)).map
      (fun p : Track × Track => (p.1.id, p.2.id))).Nodup := by
    show ((B2.product (B1 ++ B2)).map (Prod.map Track.id Track.id)).Nodup
    rw [map_product_pair]
    exact List.Nodup.product hnd2 hnd
  have hL2nd := cefntDirPairs_idPairs_nodup hL2h1 hprodnd2
  have hspec2 := processPairs_spec threshold config
    (cefntDirPairs (B2.map Track.id) (B2.product (B1 ++ B2)))
    (((emptyGraph.add_nodes B1).compute_edges_for_new_tracks B1 threshold
      config).add_nodes B2) hL2nd
  rw [← hg2] at hspec2
  rw [hA2.2] at hspec2
  rcases hspec2 with ⟨-, hg2edges⟩
  -- Every stage-2 scanned pair touches a B2 id, so the stage-1 edges are
  -- invisible to its has-edge checks.
  have hL2touch : ∀ q ∈ cefntDirPairs (B2.map Track.id) (B2.product (B1 ++ B2)),
      q.1.id ∈ B2.map Track.id ∨ q.2.id ∈ B2.map Track.id := by
    intro q hq
    rcases mem_cefntDirPairs.mp hq with ⟨w, hw, hcase⟩
    rw [List.pair_mem_product] at hw
    rcases hcase with heq | ⟨-, heq⟩
    · rw [heq]
      exact Or.inl (List.mem_map_of_mem Track.id hw.1)
    · rw [heq]
      exact Or.inr (List.mem_map_of_mem Track.id hw.1)
  have hcongr2 : (cefntDirPairs (B2.map Track.id) (B2.product (B1 ++ B2))).filterMap
      (addF threshold config
        ((emptyGraph.add_nodes B1).compute_edges_for_new_tracks B1 threshold
          config).edges)
      = (cefntDirPairs (B2.map Track.id) (B2.product (B1 ++ B2))).filterMap
        (addF threshold config []) := by
    apply List.filterMap_congr
    intro q hq
    apply addF_congr
    rw [edgesHas_nil]
    apply edgesHas_eq_false_of_forall
    intro e he
    rcases hg1ids e he with ⟨hes, het⟩
    rintro ⟨h1, h2⟩
    rcases hL2touch q hq with hq1 | hq2
    · exact hdisj (h1 ▸ hes) hq1
    · exact hdisj (h2 ▸ het) hq2
  rw [hcongr2, hg1edges] at hg2edges
  -- Single-shot graph.
  have hAall := add_nodes_fresh (B1 ++ B2) emptyGraph
    (by simpa [emptyGraph] using hnd)
  rw [show emptyGraph.nodes ++ (B1 ++ B2) = B1 ++ B2 from by simp [emptyGraph]] at hAall
  have hgAll := compute_edges_eq (emptyGraph.add_nodes (B1 ++ B2)) threshold config
    (by rw [hAall.1]; exact hnd)
  rw [hAall.1] at hgAll
  have hLAnd := cePairs_idPairs_nodup hndns
  have hspecA := processPairs_spec threshold config (cePairs (B1 ++ B2))
    (emptyGraph.add_nodes (B1 ++ B2)) hLAnd
  rw [← hgAll] at hspecA
  rw [hAall.2] at hspecA
  rcases hspecA with ⟨-, hgAlledges⟩
  rw [show emptyGraph.edges = [] from rfl, List.nil_append] at hgAlledges
  -- Membership equivalence.
  have hiff : ∀ e,
      e ∈ ((((emptyGraph.add_nodes B1).compute_edges_for_new_tracks B1
          threshold config).add_nodes B2).compute_edges_for_new_tracks B2
          threshold config).edges
      ↔ e ∈ ((emptyGraph.add_nodes (B1 ++ B2)).compute_edges
          threshold config).edges := by
    intro e
    rw [hg2edges, hgAlledges, List.mem_append]
    constructor
    · rintro (h | h)
      · rcases List.mem_filterMap.mp h with ⟨p, hp, hsome⟩
        have hne : ¬ p.1.id = p.2.id := (addF_some_iff.mp hsome).1.1
        rcases mem_cefntDirPairs.mp hp with ⟨w, hw, hcase⟩
        rw [List.pair_mem_product] at hw
        have hmem : p.1 ∈ B1 ++ B2 ∧ p.2 ∈ B1 ++ B2 := by
          rcases hcase with heq | ⟨-, heq⟩
          · rw [heq]
            exact ⟨List.mem_append_left B2 hw.1, List.mem_append_left B2 hw.2⟩
          · rw [heq]
            exact ⟨List.mem_append_left B2 hw.2, List.mem_append_left B2 hw.1⟩
        exact List.mem_filterMap.mpr
          ⟨p, mem_cePairs_intro hmem.1 hmem.2 hne, hsome⟩
      · rcases List.mem_filterMap.mp h with ⟨p, hp, hsome⟩
        have hne : ¬ p.1.id = p.2.id := (addF_some_iff.mp hsome).1.1
        rcases mem_cefntDirPairs.mp hp with ⟨w, hw, hcase⟩
        rw [List.pair_mem_product] at hw
        have hmem : p.1 ∈ B1 ++ B2 ∧ p.2 ∈ B1 ++ B2 := by
          rcases hcase with heq | ⟨-, heq⟩
          · rw [heq]
            exact ⟨List.mem_append_right B1 hw.1, hw.2⟩
          · rw [heq]
            exact ⟨hw.2, List.mem_append_right B1 hw.1⟩
        exact List.mem_filterMap.mpr
          ⟨p, mem_cePairs_intro hmem.1 hmem.2 hne, hsome⟩
    · intro h
      rcases List.mem_filterMap.mp h with ⟨p, hp, hsome⟩
      have hne : ¬ p.1.id = p.2.id := (addF_some_iff.mp hsome).1.1
      rcases mem_cePairs_elim hp with ⟨hp1, hp2⟩
      rcases List.mem_append.mp hp1 with h1B1 | h1B2
      · rcases List.mem_append.mp hp2 with h2B1 | h2B2
        · refine Or.inl (List.mem_filterMap.mpr ⟨p, ?_, hsome⟩)
          apply mem_cefntDirPairs.mpr
          exact ⟨(p.1, p.2), List.pair_mem_product.mpr ⟨h1B1, h2B1⟩, Or.inl rfl⟩
        · refine Or.inr (List.mem_filterMap.mpr ⟨p, ?_, hsome⟩)
          apply mem_cefntDirPairs.mpr
          refine ⟨(p.2, p.1), List.pair_mem_product.mpr ⟨h2B2, hp1⟩, Or.inr ⟨?_, rfl⟩⟩
          show ¬ p.1.id ∈ B2.map Track.id
          exact fun hc => hdisj (List.mem_map_of_mem Track.id h1B1) hc
      · refine Or.inr (List.mem_filterMap.mpr ⟨p, ?_, hsome⟩)
        apply mem_cefntDirPairs.mpr
        exact ⟨(p.1, p.2), List.pair_mem_product.mpr ⟨h1B2, hp2⟩, Or.inl rfl⟩
  -- Duplicate-freedom.
  have hfm_ids : ∀ (L : List (Track × Track)),
      (((L.filterMap (addF threshold config [])).map
        (fun e => (e.source_id, e.target_id)))).Sublist
        (L.map (fun p => (p.1.id, p.2.id))) := by
    intro L
    apply filterMap_map_sublist
    intro p e hsome
    rcases addF_ids hsome with ⟨hs, ht⟩
    rw [hs, ht]
  have hndA : (((emptyGraph.add_nodes (B1 ++ B2)).compute_edges
      threshold config).edges.map (fun e => (e.source_id, e.target_id))).Nodup := by
    rw [hgAlledges]
    exact List.Nodup.sublist (hfm_ids _) hLAnd
  have hndI : (((((emptyGraph.add_nodes B1).compute_edges_for_new_tracks B1
      threshold config).add_nodes B2).compute_edges_for_new_tracks B2
      threshold config).edges.map (fun e => (e.source_id, e.target_id))).Nodup := by
    rw [hg2edges, List.map_append]
    apply List.Nodup.append
    · exact List.Nodup.sublist (hfm_ids _) hL1nd
    · exact List.Nodup.sublist (hfm_ids _) hL2nd
    · intro z hz1 hz2
      rcases List.mem_map.mp hz1 with ⟨e1, he1, rfl⟩
      rcases List.mem_filterMap.mp he1 with ⟨p, hp, hsome⟩
      rcases addF_ids hsome with ⟨hs, ht⟩
      rcases mem_cefntDirPairs.mp hp with ⟨w, hw, hcase⟩
      rw [List.pair_mem_product] at hw
      have he1ids : e1.source_id ∈ B1.map Track.id ∧ e1.target_id ∈ B1.map Track.id := by
        rcases hcase with heq | ⟨-, heq⟩
        · rw [hs, ht, heq]
          exact ⟨List.mem_map_of_mem Track.id hw.1, List.mem_map_of_mem Track.id hw.2⟩
        · rw [hs, ht, heq]
          exact ⟨List.mem_map_of_mem Track.id hw.2, List.mem_map_of_mem Track.id hw.1⟩
      rcases List.mem_map.mp hz2 with ⟨e2, he2, hzeq⟩
      rcases List.mem_filterMap.mp he2 with ⟨q, hq, hsome2⟩
      rcases addF_ids hsome2 with ⟨hs2, ht2⟩
      have htouch := hL2touch q hq
      have hz1s : e1.source_id = e2.source_id := (congrArg Prod.fst hzeq).symm
      have hz1t : e1.target_id = e2.target_id := (congrArg Prod.snd hzeq).symm
      rcases htouch with hq1 | hq2
      · exact hdisj he1ids.1 (by rw [hz1s, hs2]; exact hq1)
      · exact hdisj he1ids.2 (by rw [hz1t, ht2]; exact hq2)
  have hpairs : ∀ s t sc,
      (∃ e ∈ ((((emptyGraph.add_nodes B1).compute_edges_for_new_tracks B1
            threshold config).add_nodes B2).compute_edges_for_new_tracks B2
            threshold config).edges,
          e.source_id = s ∧ e.target_id = t ∧ e.compatibility_score = sc)
      ↔ (∃ e ∈ ((emptyGraph.add_nodes (B1 ++ B2)).compute_edges
            threshold config).edges,
          e.source_id = s ∧ e.target_id = t ∧ e.compatibility_score = sc) := by
    intro s t sc
    constructor
    · rintro ⟨e, he, hp⟩
      exact ⟨e, (hiff e).mp he, hp⟩
    · rintro ⟨e, he, hp⟩
      exact ⟨e, (hiff e).mpr he, hp⟩
  exact ⟨hiff, hpairs, hndI, hndA, ⟨hgAll, hLAnd⟩, ⟨hg1, hL1nd⟩, ⟨hg2, hL2nd⟩⟩

/-- Witness for C2 with batches `[c1TrackA 1 1]` and `[c1TrackB 1 1]`. -/
theorem incremental_edge_consistency_witness :
    (([c1TrackA 1 1] ++ [c1TrackB 1 1]).map Track.id).Nodup
    ∧ (∀ e, e ∈ ((((emptyGraph.add_nodes [c1TrackA 1 1]).compute_edges_for_new_tracks
          [c1TrackA 1 1] 0.3 none).add_nodes
          [c1TrackB 1 1]).compute_edges_for_new_tracks [c1TrackB 1 1] 0.3 none).edges
      ↔ e ∈ ((emptyGraph.add_nodes ([c1TrackA 1 1] ++ [c1TrackB 1 1])).compute_edges
          0.3 none).edges)
    ∧ (∀ s t sc,
        (∃ e ∈ ((((emptyGraph.add_nodes [c1TrackA 1 1]).compute_edges_for_new_tracks
              [c1TrackA 1 1] 0.3 none).add_nodes
              [c1TrackB 1 1]).compute_edges_for_new_tracks [c1TrackB 1 1] 0.3 none).edges,
            e.source_id = s ∧ e.target_id = t ∧ e.compatibility_score = sc)
        ↔ (∃ e ∈ ((emptyGraph.add_nodes ([c1TrackA 1 1] ++ [c1TrackB 1 1])).compute_edges
              0.3 none).edges,
            e.source_id = s ∧ e.target_id = t ∧ e.compatibility_score = sc))
    ∧ (((((emptyGraph.add_nodes [c1TrackA 1 1]).compute_edges_for_new_tracks
          [c1TrackA 1 1] 0.3 none).add_nodes
          [c1TrackB 1 1]).compute_edges_for_new_tracks [c1TrackB 1 1] 0.3 none).edges.map
          (fun e => (e.source_id, e.target_id))).Nodup
    ∧ (((emptyGraph.add_nodes ([c1TrackA 1 1] ++ [c1TrackB 1 1])).compute_edges
          0.3 none).edges.map (fun e => (e.source_id, e.target_id))).Nodup := by
  have h := incremental_edge_consistency [c1TrackA 1 1] [c1TrackB 1 1] 0.3 none
    (by simp [c1TrackA, c1TrackB, mkTrack])
  exact ⟨by simp [c1TrackA, c1TrackB, mkTrack], h.1, h.2.1, h.2.2.1, h.2.2.2.1⟩

end RekordboxCreative
